import Mathlib

/-!
UART receive-then-replay firmware: `main/uart_echo_example_main.c`

A shallow embedding of the byte-stream core of the firmware (terminator
detection, bounded RAM storage, the receive loop, the send loop, and the two
tasks running side by side) together with theorems about it.

Conventions of the embedding.

* `uint8_t` is `Fin 256`; `size_t` is a natural number kept below `SIZE_MOD`
  (the target is a 32-bit ESP32), with an explicit `% SIZE_MOD` wherever the C
  code performs unsigned arithmetic that may wrap.
* The global variables of the C file are the fields of `State`.
* `ram_storage` is a table indexed by `Fin MAX_TEXT_SIZE`; a C read outside the
  array has no defined value and is `none` in `ram_read`.
* `ESP_LOGE` calls are recorded, in order, in the `log` field.  `ESP_LOGI`
  calls, task delays and the UART driver set-up do not influence any modelled
  variable and are left out.
* One call of `uart_read_bytes` is one list of bytes (a chunk); the empty list
  stands for a timeout or a driver error (`len <= 0`).
* The value returned by a call of `uart_write_bytes` is given by the
  environment; the send loop takes a bound on its number of iterations and
  reports whether it has ended within it.
* For the two tasks together, a step of the system is one statement of one
  task, executed atomically; the environment chooses which task runs.
-/

namespace UartEcho

/-! ## Data model -/

/-- An 8-bit unsigned byte. -/
abbrev uint8_t := Fin 256

/-- Number of values of `size_t` on the 32-bit target: `2 ^ 32`. -/
def SIZE_MOD : Nat := 4294967296

/-- The constant `#define BUF_SIZE 1024`. -/
def BUF_SIZE : Nat := 1024

/-- The constant `#define MAX_TEXT_SIZE 2048`. -/
def MAX_TEXT_SIZE : Nat := 2048

/-- The enumeration
`typedef enum { STATE_RECEIVING, STATE_SENDING, STATE_IDLE } uart_state_t;`. -/
inductive uart_state_t where
  | STATE_RECEIVING
  | STATE_SENDING
  | STATE_IDLE
  deriving DecidableEq, Repr

open uart_state_t

/-- The marker `static const uint8_t EOT_MARKER[] = {'\n', '\n', '\n'};`
(three line feeds, `0x0A`). -/
def EOT_MARKER : List uint8_t := [10, 10, 10]

/-- The constant `static const size_t EOT_MARKER_LEN = 3;`. -/
def EOT_MARKER_LEN : Nat := 3

/-- The three cells of `static uint8_t eot_buffer[3]`. -/
structure eot_buffer_t where
  c0 : uint8_t
  c1 : uint8_t
  c2 : uint8_t
  deriving DecidableEq, Repr

/-- The cells of an `eot_buffer_t` in index order. -/
def eot_buffer_t.toList (w : eot_buffer_t) : List uint8_t := [w.c0, w.c1, w.c2]

/-- The `ESP_LOGE` calls of the file. -/
inductive log_error where
  /-- The error "Storage overflow at position %u" of `store_byte`. -/
  | storage_overflow (position : Nat)
  /-- The error "Attempt to retrieve beyond storage at position %u" of
  `retrieve_byte`. -/
  | retrieve_beyond (position : Nat)
  /-- The error "Error sending data: %d" of `uart_send_task`. -/
  | send_error (bytes_sent : Int)
  deriving DecidableEq, Repr

/-- The global variables of the C file, plus the error log. -/
structure State where
  ram_storage : Fin MAX_TEXT_SIZE → uint8_t
  ram_storage_size : Nat
  current_state : uart_state_t
  total_bytes_received : Nat
  total_bytes_sent : Nat
  end_of_transmission : Bool
  eot_buffer : eot_buffer_t
  log : List log_error

/-- The values of the globals at start-up (static initialisers). -/
def initial_state : State where
  ram_storage := fun _ => 0
  ram_storage_size := 0
  current_state := STATE_RECEIVING
  total_bytes_received := 0
  total_bytes_sent := 0
  end_of_transmission := false
  eot_buffer := ⟨0, 0, 0⟩
  log := []

/-- The C expression `ram_storage[position]` as a read: defined only inside
the array. -/
def ram_read (ram : Fin MAX_TEXT_SIZE → uint8_t) (position : Nat) : Option uint8_t :=
  if h : position < MAX_TEXT_SIZE then some (ram ⟨position, h⟩) else none

/-- Number of `storage_overflow` entries of a log. -/
def overflow_count (l : List log_error) : Nat :=
  l.countP (fun e => match e with
    | log_error.storage_overflow _ => true
    | _ => false)

/-! ## Operations -/

/-- Function `bool check_eot(uint8_t byte)`: shift the window, append `byte`, compare
with the marker.  Returns the result and the new globals. -/
def check_eot (s : State) (byte : uint8_t) : Bool × State :=
  let b0 : eot_buffer_t := { s.eot_buffer with c0 := s.eot_buffer.c1 }
  let b1 : eot_buffer_t := { b0 with c1 := b0.c2 }
  let b2 : eot_buffer_t := { b1 with c2 := byte }
  (decide (b2.toList.take EOT_MARKER_LEN = EOT_MARKER.take EOT_MARKER_LEN),
   { s with eot_buffer := b2 })

/-- Function `void store_byte(uint8_t byte, size_t position)`: inside the
array the byte is written and the size becomes `position + 1` (no wrap-around,
as `position < MAX_TEXT_SIZE`); otherwise the overflow is logged. -/
def store_byte (s : State) (byte : uint8_t) (position : Nat) : State :=
  if h : position < MAX_TEXT_SIZE then
    { s with
      ram_storage := Function.update s.ram_storage ⟨position, h⟩ byte
      ram_storage_size := position + 1 }
  else
    { s with log := s.log ++ [log_error.storage_overflow position] }

/-- Function `uint8_t retrieve_byte(size_t position)`.  The value is `none` when the
C code reads outside `ram_storage`. -/
def retrieve_byte (s : State) (position : Nat) : Option uint8_t × State :=
  if position < s.ram_storage_size then
    (ram_read s.ram_storage position, s)
  else
    (some 0, { s with log := s.log ++ [log_error.retrieve_beyond position] })

/-- Lines 121-131 of `uart_receive_task`: the branch taken when `check_eot`
returns true.  The subtraction `total_bytes_received - EOT_MARKER_LEN` is
unsigned `size_t` arithmetic, that is, modulo `SIZE_MOD`. -/
def on_eot (s : State) : State :=
  { s with
    end_of_transmission := true
    ram_storage_size := (SIZE_MOD - EOT_MARKER_LEN + s.total_bytes_received) % SIZE_MOD
    current_state := STATE_SENDING }

/-- Lines 116-117 and the call on line 120: store the byte, count it, run the
detector.  Returns the detector's answer and the new globals. -/
def receive_byte (s : State) (byte : uint8_t) : Bool × State :=
  let s1 := store_byte s byte s.total_bytes_received
  let s2 := { s1 with total_bytes_received := (s1.total_bytes_received + 1) % SIZE_MOD }
  check_eot s2 byte

/-- The `for` loop of `uart_receive_task` (lines 114-134) over the bytes of one
chunk, with its `break` on the first detector match. -/
def process_chunk (s : State) : List uint8_t → State
  | [] => s
  | byte :: rest =>
    let r := receive_byte s byte
    if r.1 then on_eot r.2 else process_chunk r.2 rest

/-- The `while` loop of `uart_receive_task` (lines 107-144) run on the
successive results of `uart_read_bytes`.  When the chunks are used up the task
is still polling and the globals are returned as they stand. -/
def uart_receive_task (s : State) : List (List uint8_t) → State
  | [] => s
  | chunk :: rest =>
    if s.current_state = STATE_RECEIVING then
      if 0 < chunk.length then
        let s1 := process_chunk s chunk
        if s1.end_of_transmission then s1 else uart_receive_task s1 rest
      else uart_receive_task s rest
    else s

/-- Successive calls of `check_eot` on the bytes of a list: the list of
returned values and the final globals. -/
def check_eot_calls (s : State) : List uint8_t → List Bool × State
  | [] => ([], s)
  | byte :: rest =>
    let r := check_eot s byte
    let rs := check_eot_calls r.2 rest
    (r.1 :: rs.1, rs.2)

/-- Number of `0x0A` bytes at the end of a byte sequence. -/
def trailing_lf (l : List uint8_t) : Nat :=
  (l.reverse.takeWhile (fun b => decide (b = 10))).length

/-! ## Auxiliary definitions used in the proofs -/

/-- The window after one `check_eot` shift. -/
def shift_window (w : eot_buffer_t) (b : uint8_t) : eot_buffer_t := ⟨w.c1, w.c2, b⟩

/-- The `memcmp` of `check_eot`. -/
def is_marker (w : eot_buffer_t) : Bool := decide (w.toList = EOT_MARKER)

/-- The window after shifting in all bytes of a list. -/
def window_after (w : eot_buffer_t) (l : List uint8_t) : eot_buffer_t :=
  l.foldl shift_window w

/-- The globals after the bytes of a list went through `receive_byte`,
ignoring the detector's answers. -/
def feed (s : State) (l : List uint8_t) : State :=
  l.foldl (fun t b => (receive_byte t b).2) s

/-- No byte of the list makes the detector fire, starting from window `w`. -/
def quiet (w : eot_buffer_t) : List uint8_t → Prop
  | [] => True
  | b :: rest => is_marker (shift_window w b) = false ∧ quiet (shift_window w b) rest

/-- Number of `0x0A` cells at the end of a window. -/
def lf_run (w : eot_buffer_t) : Nat :=
  if w.c2 = 10 then (if w.c1 = 10 then (if w.c0 = 10 then 3 else 2) else 1) else 0

/-- The overflow entries logged while `n` bytes are stored from position 0:
one for each position from `MAX_TEXT_SIZE` up to `n - 1`. -/
def overflow_log (n : Nat) : List log_error :=
  ((List.range n).filter (fun p => decide (MAX_TEXT_SIZE ≤ p))).map log_error.storage_overflow

/-- Closed form of the globals after `l` was fed to the initial state. -/
def received (l : List uint8_t) : State where
  ram_storage := fun i => l.getD i.val 0
  ram_storage_size := min l.length MAX_TEXT_SIZE
  current_state := STATE_RECEIVING
  total_bytes_received := l.length
  total_bytes_sent := 0
  end_of_transmission := false
  eot_buffer := window_after ⟨0, 0, 0⟩ l
  log := overflow_log l.length

/-! ## The send task -/

/-- Lines 179-181 of `uart_send_task`: `data[i] = retrieve_byte(total_bytes_sent
+ i)` for `i` from 0 to `chunk_size - 1`.  Returns the filled part of `data`
and the new globals; an entry is `none` when the read was outside
`ram_storage`. -/
def fill_data (s : State) (chunk_size : Nat) : List (Option uint8_t) × State :=
  (List.range chunk_size).foldl
    (fun acc i =>
      let r := retrieve_byte acc.2 ((acc.2.total_bytes_sent + i) % SIZE_MOD)
      (acc.1 ++ [r.1], r.2))
    ([], s)

/-- One iteration of the `while` loop of `uart_send_task` (lines 173-195),
entered with `total_bytes_sent < actual_size`, so that the unsigned subtraction
`actual_size - total_bytes_sent` does not wrap.  `uart_write_bytes` gives the
value returned by the driver for the data passed.  Returns the new globals and
the call made: the data passed and the value returned. -/
def send_iteration (uart_write_bytes : List (Option uint8_t) → Int) (actual_size : Nat)
    (s : State) : State × (List (Option uint8_t) × Int) :=
  let chunk_size :=
    if BUF_SIZE < actual_size - s.total_bytes_sent then BUF_SIZE
    else actual_size - s.total_bytes_sent
  let d := fill_data s chunk_size
  let bytes_sent := uart_write_bytes d.1
  if 0 < bytes_sent then
    ({ d.2 with total_bytes_sent := (d.2.total_bytes_sent + bytes_sent.toNat) % SIZE_MOD },
     (d.1, bytes_sent))
  else
    ({ d.2 with log := d.2.log ++ [log_error.send_error bytes_sent] }, (d.1, bytes_sent))

/-- What a run of the send task has done so far: the globals, the calls of
`uart_write_bytes` in order (data passed, value returned), and whether the task
has reached its end (line 201). -/
structure send_run where
  globals : State
  writes : List (List (Option uint8_t) × Int)
  finished : Bool

/-- The `while` loop of `uart_send_task` (lines 172-196) and the state write
after it (line 199).  `chan k data` is the value the driver returns for the
call number `k` (from 0) with the data `data`; the first argument bounds the
number of iterations, and `finished` is false when it is used up. -/
def send_loop (chan : Nat → List (Option uint8_t) → Int) (actual_size : Nat) :
    Nat → State → List (List (Option uint8_t) × Int) → send_run
  | 0, s, tr =>
    if s.total_bytes_sent < actual_size then ⟨s, tr, false⟩
    else ⟨{ s with current_state := STATE_IDLE }, tr, true⟩
  | fuel + 1, s, tr =>
    if s.total_bytes_sent < actual_size then
      let r := send_iteration (chan tr.length) actual_size s
      send_loop chan actual_size fuel r.1 (tr ++ [r.2])
    else ⟨{ s with current_state := STATE_IDLE }, tr, true⟩

/-- The task `uart_send_task`, run alone on the globals `s`: while
`current_state` is not `STATE_SENDING` it keeps polling (lines 161-163);
otherwise it reads `actual_size` (line 165) and runs the loop. -/
def uart_send_task (chan : Nat → List (Option uint8_t) → Int) (fuel : Nat) (s : State) :
    send_run :=
  if s.current_state = STATE_SENDING then
    send_loop chan s.ram_storage_size fuel s []
  else ⟨s, [], false⟩

/-- The bytes that leave on the line when the driver, for a call that returns
`r`, transmits the first `r` bytes of the data (nothing when `r <= 0`). -/
def transmitted (writes : List (List (Option uint8_t) × Int)) : List (Option uint8_t) :=
  (writes.map (fun w => w.1.take w.2.toNat)).flatten

/-- The chunk sizes requested for `m` bytes when every write is accepted in
full: `m / BUF_SIZE` chunks of `BUF_SIZE` bytes, then the rest if there is
one. -/
def full_chunks (m : Nat) : List Nat :=
  List.replicate (m / BUF_SIZE) BUF_SIZE ++ (if m % BUF_SIZE = 0 then [] else [m % BUF_SIZE])

/-- The reads `ram_storage[start]`, ..., `ram_storage[start + len - 1]`. -/
def ram_slice (ram : Fin MAX_TEXT_SIZE → uint8_t) (start len : Nat) : List (Option uint8_t) :=
  (List.range len).map (fun i => ram_read ram (start + i))

/-- The `chunk_size` computed on lines 173-174. -/
def chunk_at (s : State) (actual_size : Nat) : Nat :=
  if BUF_SIZE < actual_size - s.total_bytes_sent then BUF_SIZE
  else actual_size - s.total_bytes_sent

/-- The number of bytes the driver has accepted over a sequence of calls of
`uart_write_bytes`: the sum of the positive values returned. -/
def accepted (writes : List (List (Option uint8_t) × Int)) : Nat :=
  (writes.map (fun w => w.2.toNat)).sum

/-- The errors the send loop logs for a sequence of calls of
`uart_write_bytes`: one "Error sending data" for each value that is not
positive, in order. -/
def send_errors (writes : List (List (Option uint8_t) × Int)) : List log_error :=
  (writes.filter (fun w => decide (w.2 ≤ 0))).map (fun w => log_error.send_error w.2)

/-- The call number `j` of `uart_write_bytes` made with `total_bytes_sent =
position` on the store of `s`: the data passed is `ram_storage[position ..
position + c)` with `c = min (ram_storage_size - position) BUF_SIZE`, and the
value returned is what the driver gives for it. -/
def write_at (chan : Nat → List (Option uint8_t) → Int) (s : State) (position j : Nat) :
    List (Option uint8_t) × Int :=
  (ram_slice s.ram_storage position (min (s.ram_storage_size - position) BUF_SIZE),
   chan j (ram_slice s.ram_storage position (min (s.ram_storage_size - position) BUF_SIZE)))

/-- A run of the send loop continued by one more iteration, if it has not
ended: the iteration, then the test of the loop condition. -/
def send_more (chan : Nat → List (Option uint8_t) → Int) (actual_size : Nat)
    (R : send_run) : send_run :=
  if R.finished then R
  else
    send_loop chan actual_size 0
      (send_iteration (chan R.writes.length) actual_size R.globals).1
      (R.writes ++ [(send_iteration (chan R.writes.length) actual_size R.globals).2])

/-- What holds of a run of the send loop started on the globals `s` with no
call made yet, when at most `fuel` iterations are allowed. -/
def send_inv (chan : Nat → List (Option uint8_t) → Int) (s : State) (fuel : Nat)
    (R : send_run) : Prop :=
  R.globals.ram_storage = s.ram_storage ∧
  R.globals.ram_storage_size = s.ram_storage_size ∧
  R.globals.total_bytes_sent = s.total_bytes_sent + accepted R.writes ∧
  R.globals.total_bytes_sent ≤ s.ram_storage_size ∧
  R.globals.log = s.log ++ send_errors R.writes ∧
  (R.finished = false →
    R.writes.length = fuel ∧ R.globals.total_bytes_sent < s.ram_storage_size ∧
    R.globals.current_state = STATE_SENDING) ∧
  (R.finished = true →
    R.globals.total_bytes_sent = s.ram_storage_size ∧
    R.globals.current_state = STATE_IDLE ∧ R.writes.length ≤ fuel) ∧
  (∀ j, j < R.writes.length →
    s.total_bytes_sent + accepted (R.writes.take j) < s.ram_storage_size ∧
    R.writes[j]? = some (write_at chan s (s.total_bytes_sent + accepted (R.writes.take j)) j))

/-- An example driver: it refuses the first write (returns 0) and accepts at
most two bytes in each later call. -/
def refusing_driver : Nat → List (Option uint8_t) → Int :=
  fun j data => if j = 0 then 0 else ((min 2 data.length : Nat) : Int)

/-- Example globals at the start of the send task: five bytes to send. -/
def five_to_send : State :=
  { initial_state with ram_storage_size := 5, current_state := STATE_SENDING }

/-! ## The two tasks side by side -/

/-- Where the receive task stands in `uart_receive_task`. -/
inductive recv_pc where
  /-- At the head of the `while` loop (line 107). -/
  | loop_head
  /-- At the head of the `for` loop (line 114) with the bytes of the chunk not
  yet processed. -/
  | for_head (pending : List uint8_t)
  /-- After `store_byte` (line 116). -/
  | stored (byte : uint8_t) (pending : List uint8_t)
  /-- After `total_bytes_received++` (line 117). -/
  | counted (byte : uint8_t) (pending : List uint8_t)
  /-- In the branch of line 120, `check_eot` has returned true. -/
  | matched
  /-- After `end_of_transmission = true` (line 124). -/
  | flagged
  /-- After the write of `ram_storage_size` (line 127). -/
  | trimmed
  /-- After the `for` loop, at line 137. -/
  | after_for
  /-- After the `while` loop (lines 147-151). -/
  | finished
  deriving DecidableEq, Repr

/-- Where the send task stands in `uart_send_task`. -/
inductive send_pc where
  /-- In the polling loop (lines 161-163). -/
  | waiting
  /-- Out of the polling loop, before the read of `ram_storage_size`
  (line 165). -/
  | observed
  /-- At the head of the `while` loop (line 172) with the value of
  `actual_size`. -/
  | sending (actual_size : Nat)
  /-- After the write of `current_state` (line 199). -/
  | finished
  deriving DecidableEq, Repr

/-- The globals and the position of each task. -/
structure System where
  globals : State
  recv : recv_pc
  send : send_pc

/-- One scheduling decision: which task runs its next step, with what the
driver returns should that step call it (`uart_read_bytes` for the receive
task, `uart_write_bytes` for the send task). -/
inductive event where
  | recv_runs (chunk : List uint8_t)
  | send_runs (bytes_sent : Int)

/-- The system at start-up: both tasks at their beginning. -/
def initial_system : System := ⟨initial_state, recv_pc.loop_head, send_pc.waiting⟩

/-- One step of the receive task. -/
def recv_step (sys : System) (chunk : List uint8_t) : System :=
  match sys.recv with
  | recv_pc.loop_head =>
    if sys.globals.current_state = STATE_RECEIVING then
      if 0 < chunk.length then { sys with recv := recv_pc.for_head chunk }
      else sys
    else { sys with recv := recv_pc.finished }
  | recv_pc.for_head [] => { sys with recv := recv_pc.after_for }
  | recv_pc.for_head (byte :: pending) =>
    { sys with
      globals := store_byte sys.globals byte sys.globals.total_bytes_received
      recv := recv_pc.stored byte pending }
  | recv_pc.stored byte pending =>
    { sys with
      globals := { sys.globals with
        total_bytes_received := (sys.globals.total_bytes_received + 1) % SIZE_MOD }
      recv := recv_pc.counted byte pending }
  | recv_pc.counted byte pending =>
    { sys with
      globals := (check_eot sys.globals byte).2
      recv := if (check_eot sys.globals byte).1 then recv_pc.matched
              else recv_pc.for_head pending }
  | recv_pc.matched =>
    { sys with
      globals := { sys.globals with end_of_transmission := true }
      recv := recv_pc.flagged }
  | recv_pc.flagged =>
    { sys with
      globals := { sys.globals with
        ram_storage_size :=
          (SIZE_MOD - EOT_MARKER_LEN + sys.globals.total_bytes_received) % SIZE_MOD }
      recv := recv_pc.trimmed }
  | recv_pc.trimmed =>
    { sys with
      globals := { sys.globals with current_state := STATE_SENDING }
      recv := recv_pc.after_for }
  | recv_pc.after_for =>
    if sys.globals.end_of_transmission then { sys with recv := recv_pc.finished }
    else { sys with recv := recv_pc.loop_head }
  | recv_pc.finished => sys

/-- One step of the send task. -/
def send_step (sys : System) (bytes_sent : Int) : System :=
  match sys.send with
  | send_pc.waiting =>
    if sys.globals.current_state = STATE_SENDING then { sys with send := send_pc.observed }
    else sys
  | send_pc.observed => { sys with send := send_pc.sending sys.globals.ram_storage_size }
  | send_pc.sending actual_size =>
    if sys.globals.total_bytes_sent < actual_size then
      { sys with globals := (send_iteration (fun _ => bytes_sent) actual_size sys.globals).1 }
    else
      { sys with
        globals := { sys.globals with current_state := STATE_IDLE }
        send := send_pc.finished }
  | send_pc.finished => sys

/-- One step of the system. -/
def system_step (sys : System) : event → System
  | event.recv_runs chunk => recv_step sys chunk
  | event.send_runs bytes_sent => send_step sys bytes_sent

/-- The system after a sequence of scheduling decisions, from start-up. -/
def run_system (events : List event) : System :=
  events.foldl system_step initial_system

/-- The invariant of the two tasks: until the receive task has written
`STATE_SENDING` the send task is polling; from the trim on, `ram_storage_size`
is the trimmed size; a send task past the polling loop holds that size. -/
def system_inv (sys : System) : Prop :=
  match sys.recv with
  | recv_pc.flagged =>
    sys.globals.current_state = STATE_RECEIVING ∧ sys.send = send_pc.waiting ∧
      sys.globals.end_of_transmission = true
  | recv_pc.trimmed =>
    sys.globals.current_state = STATE_RECEIVING ∧ sys.send = send_pc.waiting ∧
      sys.globals.end_of_transmission = true ∧
      sys.globals.ram_storage_size =
        (SIZE_MOD - EOT_MARKER_LEN + sys.globals.total_bytes_received) % SIZE_MOD
  | recv_pc.after_for =>
    (sys.globals.current_state = STATE_RECEIVING ∧ sys.send = send_pc.waiting ∧
      sys.globals.end_of_transmission = false) ∨
    (sys.globals.end_of_transmission = true ∧
      sys.globals.ram_storage_size =
        (SIZE_MOD - EOT_MARKER_LEN + sys.globals.total_bytes_received) % SIZE_MOD ∧
      match sys.send with
      | send_pc.waiting => sys.globals.current_state = STATE_SENDING
      | send_pc.observed => sys.globals.current_state = STATE_SENDING
      | send_pc.sending a =>
        sys.globals.current_state = STATE_SENDING ∧ a = sys.globals.ram_storage_size
      | send_pc.finished => sys.globals.current_state = STATE_IDLE)
  | recv_pc.finished =>
    sys.globals.end_of_transmission = true ∧
      sys.globals.ram_storage_size =
        (SIZE_MOD - EOT_MARKER_LEN + sys.globals.total_bytes_received) % SIZE_MOD ∧
      match sys.send with
      | send_pc.waiting => sys.globals.current_state = STATE_SENDING
      | send_pc.observed => sys.globals.current_state = STATE_SENDING
      | send_pc.sending a =>
        sys.globals.current_state = STATE_SENDING ∧ a = sys.globals.ram_storage_size
      | send_pc.finished => sys.globals.current_state = STATE_IDLE
  | _ =>
    sys.globals.current_state = STATE_RECEIVING ∧ sys.send = send_pc.waiting ∧
      sys.globals.end_of_transmission = false

/-! ## Lemmas -/

theorem check_eot_eq (s : State) (b : uint8_t) :
    check_eot s b =
      (is_marker (shift_window s.eot_buffer b),
       { s with eot_buffer := shift_window s.eot_buffer b }) := rfl

theorem receive_byte_fst (s : State) (b : uint8_t) :
    (receive_byte s b).1 = is_marker (shift_window s.eot_buffer b) := by
  unfold receive_byte store_byte
  split <;> rfl

theorem receive_byte_eot_buffer (s : State) (b : uint8_t) :
    (receive_byte s b).2.eot_buffer = shift_window s.eot_buffer b := by
  unfold receive_byte store_byte
  split <;> rfl

theorem receive_byte_current_state (s : State) (b : uint8_t) :
    (receive_byte s b).2.current_state = s.current_state := by
  unfold receive_byte store_byte
  split <;> rfl

theorem receive_byte_end_of_transmission (s : State) (b : uint8_t) :
    (receive_byte s b).2.end_of_transmission = s.end_of_transmission := by
  unfold receive_byte store_byte
  split <;> rfl

theorem feed_nil (s : State) : feed s [] = s := rfl

theorem feed_cons (s : State) (b : uint8_t) (l : List uint8_t) :
    feed s (b :: l) = feed (receive_byte s b).2 l := rfl

theorem feed_append (s : State) (l m : List uint8_t) :
    feed s (l ++ m) = feed (feed s l) m := by
  simp [feed, List.foldl_append]

theorem feed_eot_buffer (s : State) (l : List uint8_t) :
    (feed s l).eot_buffer = window_after s.eot_buffer l := by
  induction l generalizing s with
  | nil => rfl
  | cons b l ih =>
    rw [feed_cons, ih, receive_byte_eot_buffer]
    rfl

theorem window_after_append (w : eot_buffer_t) (l m : List uint8_t) :
    window_after w (l ++ m) = window_after (window_after w l) m := by
  simp [window_after, List.foldl_append]

theorem window_after_concat (w : eot_buffer_t) (l : List uint8_t) (b : uint8_t) :
    shift_window (window_after w l) b = window_after w (l ++ [b]) := by
  rw [window_after_append]; rfl

theorem on_eot_ram_storage_size (s : State) :
    (on_eot s).ram_storage_size =
      (SIZE_MOD - EOT_MARKER_LEN + s.total_bytes_received) % SIZE_MOD := rfl

theorem on_eot_log (s : State) : (on_eot s).log = s.log := rfl

theorem on_eot_ram_storage (s : State) : (on_eot s).ram_storage = s.ram_storage := rfl

theorem on_eot_total_bytes_received (s : State) :
    (on_eot s).total_bytes_received = s.total_bytes_received := rfl

/-- While the detector stays silent the `for` loop just feeds bytes. -/
theorem process_chunk_quiet (s : State) (l rest : List uint8_t)
    (h : quiet s.eot_buffer l) :
    process_chunk s (l ++ rest) = process_chunk (feed s l) rest := by
  induction l generalizing s with
  | nil => rfl
  | cons b l ih =>
    obtain ⟨h1, h2⟩ := h
    have hb : (receive_byte s b).1 = false := by rw [receive_byte_fst]; exact h1
    rw [List.cons_append, process_chunk, feed_cons]
    simp only [hb]
    rw [← receive_byte_eot_buffer] at h2
    simpa using ih _ h2

/-- The byte on which the detector fires ends the `for` loop. -/
theorem process_chunk_hit (s : State) (b : uint8_t) (rest : List uint8_t)
    (h : is_marker (shift_window s.eot_buffer b) = true) :
    process_chunk s (b :: rest) = on_eot (feed s [b]) := by
  have hb : (receive_byte s b).1 = true := by rw [receive_byte_fst]; exact h
  rw [process_chunk]
  simp only [hb]
  rfl

/-- A silent stretch followed by the firing byte. -/
theorem process_chunk_first_hit (s : State) (l : List uint8_t) (b : uint8_t)
    (rest : List uint8_t) (hq : quiet s.eot_buffer l)
    (hb : is_marker (shift_window (window_after s.eot_buffer l) b) = true) :
    process_chunk s (l ++ b :: rest) = on_eot (feed s (l ++ [b])) := by
  rw [process_chunk_quiet s l _ hq, process_chunk_hit, feed_append]
  rw [feed_eot_buffer]
  exact hb

theorem process_chunk_flag (s : State) (l : List uint8_t)
    (h : (process_chunk s l).end_of_transmission = false) :
    (process_chunk s l).current_state = s.current_state ∧
      s.end_of_transmission = false := by
  induction l generalizing s with
  | nil => exact ⟨rfl, h⟩
  | cons b l ih =>
    rw [process_chunk] at h ⊢
    by_cases hb : (receive_byte s b).1 = true
    · simp [hb, on_eot] at h
    · simp only [hb] at h ⊢
      have := ih _ h
      rw [receive_byte_current_state, receive_byte_end_of_transmission] at this
      simpa using this

theorem process_chunk_append (s : State) (l m : List uint8_t)
    (hs : s.end_of_transmission = false) :
    process_chunk s (l ++ m) =
      if (process_chunk s l).end_of_transmission then process_chunk s l
      else process_chunk (process_chunk s l) m := by
  induction l generalizing s with
  | nil => simp [process_chunk, hs]
  | cons b l ih =>
    rw [List.cons_append, process_chunk, process_chunk]
    by_cases hb : (receive_byte s b).1 = true
    · simp [hb, on_eot]
    · simp only [hb]
      have := ih (receive_byte s b).2 (by rw [receive_byte_end_of_transmission]; exact hs)
      simpa using this

/-- The chunk boundaries do not matter: the task behaves as the `for` loop on
the concatenated bytes. -/
theorem uart_receive_task_join (s : State) (chunks : List (List uint8_t))
    (hs : s.current_state = STATE_RECEIVING) (he : s.end_of_transmission = false) :
    uart_receive_task s chunks = process_chunk s chunks.flatten := by
  induction chunks generalizing s with
  | nil => rfl
  | cons c cs ih =>
    rw [uart_receive_task, List.flatten_cons, process_chunk_append s c _ he]
    simp only [hs, if_true]
    by_cases hc : 0 < c.length
    · simp only [hc, if_true]
      by_cases hf : (process_chunk s c).end_of_transmission = true
      · simp [hf]
      · simp only [hf]
        have hf2 : (process_chunk s c).end_of_transmission = false := by simpa using hf
        obtain ⟨h1, _⟩ := process_chunk_flag s c hf2
        exact ih _ (h1.trans hs) hf2
    · have : c = [] := by
        cases c with
        | nil => rfl
        | cons _ _ => simp at hc
      subst this
      simp only [hc, if_false, process_chunk, he]
      simpa using ih s hs he

theorem overflow_log_succ (n : Nat) :
    overflow_log (n + 1) =
      overflow_log n ++ (if MAX_TEXT_SIZE ≤ n then [log_error.storage_overflow n] else []) := by
  unfold overflow_log
  rw [List.range_succ, List.filter_append, List.map_append]
  by_cases h : MAX_TEXT_SIZE ≤ n <;> simp [h]

theorem overflow_count_overflow_log (n : Nat) :
    overflow_count (overflow_log n) = n - MAX_TEXT_SIZE := by
  induction n with
  | zero => simp [overflow_log, overflow_count]
  | succ n ih =>
    rw [overflow_log_succ]
    unfold overflow_count at ih ⊢
    rw [List.countP_append, ih]
    by_cases h : MAX_TEXT_SIZE ≤ n
    · simp only [h, if_true, List.countP_singleton]
      omega
    · simp only [h, if_false, List.countP_nil]
      omega

theorem received_log (l : List uint8_t) : (received l).log = overflow_log l.length := rfl

theorem received_ram_storage (l : List uint8_t) (i : Fin MAX_TEXT_SIZE) :
    (received l).ram_storage i = l.getD i.val 0 := rfl

theorem received_total_bytes_received (l : List uint8_t) :
    (received l).total_bytes_received = l.length := rfl

theorem received_ram_storage_size (l : List uint8_t) :
    (received l).ram_storage_size = min l.length MAX_TEXT_SIZE := rfl

theorem received_nil : received [] = initial_state := by
  simp [received, initial_state, window_after, overflow_log]

theorem State.eq_of_fields (s t : State)
    (h1 : s.ram_storage = t.ram_storage)
    (h2 : s.ram_storage_size = t.ram_storage_size)
    (h3 : s.current_state = t.current_state)
    (h4 : s.total_bytes_received = t.total_bytes_received)
    (h5 : s.total_bytes_sent = t.total_bytes_sent)
    (h6 : s.end_of_transmission = t.end_of_transmission)
    (h7 : s.eot_buffer = t.eot_buffer)
    (h8 : s.log = t.log) : s = t := by
  cases s; cases t; simp_all

theorem receive_byte_received (l : List uint8_t) (b : uint8_t)
    (h : l.length + 1 < SIZE_MOD) :
    (receive_byte (received l) b).2 = received (l ++ [b]) := by
  have hm : (l.length + 1) % SIZE_MOD = l.length + 1 := Nat.mod_eq_of_lt h
  have hlen : (received l).total_bytes_received = l.length := rfl
  unfold receive_byte store_byte
  rw [check_eot_eq, hlen]
  by_cases hp : l.length < MAX_TEXT_SIZE
  · rw [dif_pos hp]
    apply State.eq_of_fields
    · show Function.update (fun i : Fin MAX_TEXT_SIZE => l.getD i.val 0) ⟨l.length, hp⟩ b
        = fun i : Fin MAX_TEXT_SIZE => (l ++ [b]).getD i.val 0
      funext i
      by_cases hi : i = ⟨l.length, hp⟩
      · subst hi
        simp [List.getD_eq_getElem?_getD]
      · have hne : i.val ≠ l.length := fun hh => hi (Fin.ext hh)
        rw [Function.update_noteq hi]
        simp only [List.getD_eq_getElem?_getD]
        rcases Nat.lt_or_gt_of_ne hne with h1 | h1
        · rw [List.getElem?_append_left h1]
        · rw [List.getElem?_eq_none (by omega), List.getElem?_eq_none (by simp; omega)]
    · show l.length + 1 = min (l ++ [b]).length MAX_TEXT_SIZE
      rw [List.length_append, List.length_singleton]
      omega
    · rfl
    · show (l.length + 1) % SIZE_MOD = (l ++ [b]).length
      rw [hm, List.length_append, List.length_singleton]
    · rfl
    · rfl
    · show shift_window (window_after ⟨0, 0, 0⟩ l) b = window_after ⟨0, 0, 0⟩ (l ++ [b])
      rw [window_after_append]; rfl
    · show overflow_log l.length = overflow_log (l ++ [b]).length
      rw [List.length_append, List.length_singleton, overflow_log_succ,
        if_neg (by omega), List.append_nil]
  · rw [dif_neg hp]
    apply State.eq_of_fields
    · show (fun i : Fin MAX_TEXT_SIZE => l.getD i.val 0)
        = fun i : Fin MAX_TEXT_SIZE => (l ++ [b]).getD i.val 0
      funext i
      have hi : i.val < l.length := by have := i.isLt; omega
      simp only [List.getD_eq_getElem?_getD]
      rw [List.getElem?_append_left hi]
    · show min l.length MAX_TEXT_SIZE = min (l ++ [b]).length MAX_TEXT_SIZE
      rw [List.length_append, List.length_singleton]
      omega
    · rfl
    · show (l.length + 1) % SIZE_MOD = (l ++ [b]).length
      rw [hm, List.length_append, List.length_singleton]
    · rfl
    · rfl
    · show shift_window (window_after ⟨0, 0, 0⟩ l) b = window_after ⟨0, 0, 0⟩ (l ++ [b])
      rw [window_after_append]; rfl
    · show overflow_log l.length ++ [log_error.storage_overflow l.length]
        = overflow_log (l ++ [b]).length
      rw [List.length_append, List.length_singleton, overflow_log_succ,
        if_pos (by omega)]

/-- From the initial state, feeding `l` gives the closed form `received l`. -/
theorem feed_initial (l : List uint8_t) (h : l.length < SIZE_MOD) :
    feed initial_state l = received l := by
  induction l using List.reverseRecOn with
  | nil => rw [feed_nil, received_nil]
  | append_singleton l b ih =>
    have hl : l.length + 1 < SIZE_MOD := by simpa using h
    rw [feed_append, ih (by omega), feed_cons, feed_nil, receive_byte_received l b hl]

/-! ### The detector and runs of line feeds -/

theorem trailing_lf_nil : trailing_lf [] = 0 := rfl

theorem trailing_lf_concat (l : List uint8_t) (b : uint8_t) :
    trailing_lf (l ++ [b]) = if b = 10 then trailing_lf l + 1 else 0 := by
  unfold trailing_lf
  rw [List.reverse_append, List.reverse_singleton, List.singleton_append,
    List.takeWhile_cons]
  by_cases h : b = 10 <;> simp [h]

theorem trailing_lf_append_replicate (l : List uint8_t) (j : Nat) :
    trailing_lf (l ++ List.replicate j 10) = trailing_lf l + j := by
  induction j with
  | zero => simp
  | succ j ih =>
    rw [List.replicate_succ', ← List.append_assoc, trailing_lf_concat, ih]
    simp
    omega

theorem replicate_trailing_lf_suffix (l : List uint8_t) :
    List.replicate (trailing_lf l) 10 <:+ l := by
  induction l using List.reverseRecOn with
  | nil => simp [trailing_lf_nil]
  | append_singleton l b ih =>
    rw [trailing_lf_concat]
    by_cases h : b = 10
    · subst h
      rw [if_pos rfl, List.replicate_succ']
      obtain ⟨t, ht⟩ := ih
      exact ⟨t, by rw [← List.append_assoc, ht]⟩
    · rw [if_neg h]
      exact List.nil_suffix

/-- A sequence whose trailing run has three line feeds ends with the marker. -/
theorem marker_suffix_of_trailing_lf (l : List uint8_t) (h : 3 ≤ trailing_lf l) :
    EOT_MARKER <:+ l := by
  obtain ⟨t, ht⟩ := replicate_trailing_lf_suffix l
  obtain ⟨k, hk⟩ : ∃ k, trailing_lf l = k + 3 := ⟨trailing_lf l - 3, by omega⟩
  rw [hk, List.replicate_add] at ht
  refine ⟨t ++ List.replicate k 10, ?_⟩
  rw [List.append_assoc]
  exact ht

/-- In a sequence without the marker every initial segment has a trailing run
of at most two line feeds. -/
theorem trailing_lf_take_lt (S : List uint8_t) (h : ¬ EOT_MARKER <:+: S) (k : Nat) :
    trailing_lf (S.take k) < 3 := by
  by_contra hc
  have h1 : EOT_MARKER <:+ S.take k := marker_suffix_of_trailing_lf _ (by omega)
  exact h (h1.isInfix.trans (List.take_prefix k S).isInfix)

theorem lf_run_shift (w : eot_buffer_t) (b : uint8_t) :
    lf_run (shift_window w b) = if b = 10 then min 3 (lf_run w + 1) else 0 := by
  unfold lf_run shift_window
  by_cases h2 : b = 10 <;> by_cases h1 : w.c2 = 10 <;> by_cases h0 : w.c1 = 10 <;>
    by_cases h : w.c0 = 10 <;> simp [h2, h1, h0, h]

theorem lf_run_window_after (l : List uint8_t) :
    lf_run (window_after ⟨0, 0, 0⟩ l) = min 3 (trailing_lf l) := by
  induction l using List.reverseRecOn with
  | nil => rfl
  | append_singleton l b ih =>
    rw [window_after_append, trailing_lf_concat]
    show lf_run (shift_window (window_after ⟨0, 0, 0⟩ l) b) = _
    rw [lf_run_shift, ih]
    by_cases h : b = 10
    · simp only [h, if_true]; omega
    · simp only [h, if_false]; omega

theorem is_marker_iff (w : eot_buffer_t) : is_marker w = true ↔ lf_run w = 3 := by
  obtain ⟨a, b, c⟩ := w
  unfold is_marker lf_run eot_buffer_t.toList EOT_MARKER
  by_cases h2 : c = 10 <;> by_cases h1 : b = 10 <;> by_cases h0 : a = 10 <;>
    simp [h2, h1, h0]

/-- From the zero-filled window the detector fires exactly when the bytes seen
so far end with three line feeds. -/
theorem is_marker_window_after (l : List uint8_t) :
    is_marker (window_after ⟨0, 0, 0⟩ l) = decide (3 ≤ trailing_lf l) := by
  rw [Bool.eq_iff_iff, is_marker_iff, lf_run_window_after, decide_eq_true_iff]
  omega

theorem quiet_of_trailing_lf (P Q : List uint8_t)
    (h : ∀ k, 0 < k → k ≤ Q.length → trailing_lf (P ++ Q.take k) < 3) :
    quiet (window_after ⟨0, 0, 0⟩ P) Q := by
  induction Q generalizing P with
  | nil => trivial
  | cons b Q ih =>
    have hstep : shift_window (window_after ⟨0, 0, 0⟩ P) b = window_after ⟨0, 0, 0⟩ (P ++ [b]) := by
      rw [window_after_append]; rfl
    refine ⟨?_, ?_⟩
    · rw [hstep, is_marker_window_after]
      have := h 1 (by omega) (by simp)
      simp only [List.take_succ_cons, List.take_zero] at this
      simpa using this
    · rw [hstep]
      apply ih
      intro k hk hk2
      have := h (k + 1) (by omega) (by simpa using hk2)
      simpa using this

/-! ### The receive loop on a payload followed by the marker -/

theorem trailing_lf_le_length (l : List uint8_t) : trailing_lf l ≤ l.length := by
  have := (replicate_trailing_lf_suffix l).length_le
  simpa using this

theorem trailing_lf_le_two (S : List uint8_t) (h : ¬ EOT_MARKER <:+: S) :
    trailing_lf S ≤ 2 := by
  have := trailing_lf_take_lt S h S.length
  rw [List.take_length] at this
  omega

/-- On a marker-free payload followed by the marker, in any chunking, the
detector first fires on the line feed that completes a run of three; the
globals are then those of the trim step applied to the bytes fed so far. -/
theorem uart_receive_task_payload (S : List uint8_t) (chunks : List (List uint8_t))
    (hfree : ¬ EOT_MARKER <:+: S) (hlen : S.length + 3 < SIZE_MOD)
    (hchunks : chunks.flatten = S ++ EOT_MARKER) :
    uart_receive_task initial_state chunks =
      on_eot (received (S ++ List.replicate (3 - trailing_lf S) 10)) := by
  have ht := trailing_lf_le_two S hfree
  rw [uart_receive_task_join _ _ rfl rfl, hchunks]
  have hsplit : S ++ EOT_MARKER =
      (S ++ List.replicate (2 - trailing_lf S) 10) ++ 10 :: List.replicate (trailing_lf S) 10 := by
    have h3 : EOT_MARKER = List.replicate (2 - trailing_lf S) 10 ++
        10 :: List.replicate (trailing_lf S) 10 := by
      rcases Nat.lt_or_ge (trailing_lf S) 1 with h | h
      · have : trailing_lf S = 0 := by omega
        rw [this]; rfl
      · rcases Nat.lt_or_ge (trailing_lf S) 2 with h' | h'
        · have : trailing_lf S = 1 := by omega
          rw [this]; rfl
        · have : trailing_lf S = 2 := by omega
          rw [this]; rfl
    rw [List.append_assoc, ← h3]
  have hP : (S ++ List.replicate (2 - trailing_lf S) 10) ++ [10] =
      S ++ List.replicate (3 - trailing_lf S) 10 := by
    have : 3 - trailing_lf S = (2 - trailing_lf S) + 1 := by omega
    rw [this, List.replicate_succ', List.append_assoc]
  have hq : quiet initial_state.eot_buffer (S ++ List.replicate (2 - trailing_lf S) 10) := by
    have := quiet_of_trailing_lf [] (S ++ List.replicate (2 - trailing_lf S) 10) (by
      intro k _ _
      rw [List.nil_append, List.take_append_eq_append_take, List.take_replicate]
      rcases Nat.lt_or_ge k S.length with h | h
      · have h0 : min (k - S.length) (2 - trailing_lf S) = 0 := by omega
        rw [h0, List.replicate_zero, List.append_nil]
        exact trailing_lf_take_lt S hfree k
      · rw [List.take_of_length_le h, trailing_lf_append_replicate]
        omega)
    exact this
  have hb : is_marker (shift_window (window_after initial_state.eot_buffer
      (S ++ List.replicate (2 - trailing_lf S) 10)) 10) = true := by
    rw [window_after_concat, hP]
    show is_marker (window_after ⟨0, 0, 0⟩ _) = true
    rw [is_marker_window_after, trailing_lf_append_replicate]
    simp only [decide_eq_true_eq]
    omega
  rw [hsplit, process_chunk_first_hit initial_state _ 10 _ hq hb, hP, feed_initial]
  simp only [List.length_append, List.length_replicate]
  omega

/-- The fields of the globals once a marker-free payload `S` followed by the
marker has been received from the initial state, in any chunking; `t` is the
number of line feeds at the end of `S`. -/
theorem uart_receive_task_summary (S : List uint8_t) (chunks : List (List uint8_t))
    (hfree : ¬ EOT_MARKER <:+: S) (hlen : S.length + 3 < SIZE_MOD)
    (hchunks : chunks.flatten = S ++ EOT_MARKER) :
    trailing_lf S ≤ 2 ∧ trailing_lf S ≤ S.length ∧
    (uart_receive_task initial_state chunks).current_state = STATE_SENDING ∧
    (uart_receive_task initial_state chunks).end_of_transmission = true ∧
    (uart_receive_task initial_state chunks).total_bytes_received
      = S.length + 3 - trailing_lf S ∧
    (uart_receive_task initial_state chunks).ram_storage_size
      = S.length - trailing_lf S ∧
    (∀ i, i < S.length → i < MAX_TEXT_SIZE →
      ram_read (uart_receive_task initial_state chunks).ram_storage i = S[i]?) ∧
    overflow_count (uart_receive_task initial_state chunks).log
      = S.length + 3 - trailing_lf S - MAX_TEXT_SIZE := by
  have ht := trailing_lf_le_two S hfree
  have hl := trailing_lf_le_length S
  rw [uart_receive_task_payload S chunks hfree hlen hchunks]
  refine ⟨ht, hl, rfl, rfl, ?_, ?_, ?_, ?_⟩
  · show (S ++ List.replicate (3 - trailing_lf S) 10).length = _
    rw [List.length_append, List.length_replicate]
    omega
  · rw [on_eot_ram_storage_size]
    show (SIZE_MOD - EOT_MARKER_LEN + (S ++ List.replicate (3 - trailing_lf S) 10).length)
      % SIZE_MOD = _
    rw [List.length_append, List.length_replicate]
    unfold EOT_MARKER_LEN SIZE_MOD at *
    omega
  · intro i hi hi2
    unfold ram_read
    rw [dif_pos hi2, on_eot_ram_storage]
    show some ((S ++ List.replicate (3 - trailing_lf S) 10).getD i 0) = _
    rw [List.getD_eq_getElem?_getD, List.getElem?_append_left hi, List.getElem?_eq_getElem hi]
    rfl
  · rw [on_eot_log, received_log, overflow_count_overflow_log, List.length_append, List.length_replicate]
    omega

theorem trailing_lf_eq_zero_of_getLast (S : List uint8_t) (h : S.getLast? ≠ some 10) :
    trailing_lf S = 0 := by
  induction S using List.reverseRecOn with
  | nil => rfl
  | append_singleton l b _ =>
    rw [trailing_lf_concat]
    rw [List.getLast?_append, List.getLast?_singleton] at h
    have hb : b ≠ 10 := fun hb => h (by simp [hb])
    rw [if_neg hb]

theorem marker_not_infix_of_not_mem (S : List uint8_t) (h : (10 : uint8_t) ∉ S) :
    ¬ EOT_MARKER <:+: S := by
  intro hi
  exact h (hi.subset (by simp [EOT_MARKER]))

/-! ### The window as the last three bytes -/

/-- The cells of the window after `l` are the last three entries of the old
cells followed by `l`. -/
theorem window_after_cells (w : eot_buffer_t) (l : List uint8_t) :
    window_after w l =
      ⟨(w.toList ++ l).getD l.length 0, (w.toList ++ l).getD (l.length + 1) 0,
       (w.toList ++ l).getD (l.length + 2) 0⟩ := by
  induction l generalizing w with
  | nil => rfl
  | cons a l ih =>
    show window_after (shift_window w a) l = _
    rw [ih]
    simp only [shift_window, eot_buffer_t.toList, List.cons_append, List.nil_append,
      List.length_cons, List.getD_cons_succ]

theorem is_marker_cells (w : eot_buffer_t) :
    is_marker w = true ↔ w.c0 = 10 ∧ w.c1 = 10 ∧ w.c2 = 10 := by
  obtain ⟨a, b, c⟩ := w
  simp [is_marker, eot_buffer_t.toList, EOT_MARKER]

theorem check_eot_calls_length (s : State) (bs : List uint8_t) :
    (check_eot_calls s bs).1.length = bs.length := by
  induction bs generalizing s with
  | nil => rfl
  | cons b bs ih => simp [check_eot_calls, ih]

/-- The answer of the call number `n + 1` is the comparison of the window after
the first `n + 1` bytes. -/
theorem check_eot_calls_result (s : State) (bs : List uint8_t) (n : Nat)
    (hn : n < bs.length) :
    (check_eot_calls s bs).1[n]? =
      some (is_marker (window_after s.eot_buffer (bs.take (n + 1)))) := by
  induction bs generalizing s n with
  | nil => simp at hn
  | cons b bs ih =>
    rw [check_eot_calls, check_eot_eq]
    cases n with
    | zero => simp [window_after]
    | succ n =>
      have hn2 : n < bs.length := by simpa using hn
      simp only [List.getElem?_cons_succ]
      rw [ih _ n hn2]
      rfl

theorem quiet_of_forall (w : eot_buffer_t) (l : List uint8_t)
    (h : ∀ j, j < l.length → is_marker (window_after w (l.take (j + 1))) = false) :
    quiet w l := by
  induction l generalizing w with
  | nil => trivial
  | cons b l ih =>
    refine ⟨h 0 (by simp), ih _ ?_⟩
    intro j hj
    exact h (j + 1) (by simpa using hj)

/-! ## Claims -/

/-- C1, as stated, fails: the payload `[0x41, 0x0A]` is at most 2048 bytes long
and has no three consecutive `0x0A` bytes, yet after it and the marker have
been received `ram_storage_size` is 1, not the payload length 2 (the detector
fires on the second marker byte). -/
theorem C1_size_counterexample :
    ([0x41, 10] : List uint8_t).length ≤ MAX_TEXT_SIZE ∧
    ¬ EOT_MARKER <:+: ([0x41, 10] : List uint8_t) ∧
    ([[0x41, 10, 10, 10, 10]] : List (List uint8_t)).flatten = [0x41, 10] ++ EOT_MARKER ∧
    (uart_receive_task initial_state [[0x41, 10, 10, 10, 10]]).ram_storage_size = 1 ∧
    (uart_receive_task initial_state [[0x41, 10, 10, 10, 10]]).ram_storage_size
      ≠ ([0x41, 10] : List uint8_t).length := by
  decide

/-- C1 (amended): for every byte sequence `S` of length at most 2048 without
three consecutive `0x0A` bytes, the receive loop run from the initial state on
`S` followed by the marker, in any chunking, ends with `ram_storage[0..len S)`
equal to `S` and `ram_storage_size = len S - t`, where `t <= 2` is the number of
`0x0A` bytes at the end of `S`. -/
theorem C1_payload_stored (S : List uint8_t) (chunks : List (List uint8_t))
    (hlen : S.length ≤ MAX_TEXT_SIZE) (hfree : ¬ EOT_MARKER <:+: S)
    (hchunks : chunks.flatten = S ++ EOT_MARKER) :
    trailing_lf S ≤ 2 ∧
    (uart_receive_task initial_state chunks).ram_storage_size = S.length - trailing_lf S ∧
    (∀ i, i < S.length →
      ram_read (uart_receive_task initial_state chunks).ram_storage i = S[i]?) := by
  have hl : S.length + 3 < SIZE_MOD := by unfold MAX_TEXT_SIZE at hlen; unfold SIZE_MOD; omega
  obtain ⟨h1, _, _, _, _, h6, h7, _⟩ := uart_receive_task_summary S chunks hfree hl hchunks
  exact ⟨h1, h6, fun i hi => h7 i hi (by omega)⟩

/-- C1 (amended) at the payload `[0x41, 0x0A]` received as two chunks. -/
theorem C1_payload_stored_witness :
    ([0x41, 10] : List uint8_t).length ≤ MAX_TEXT_SIZE ∧
    ¬ EOT_MARKER <:+: ([0x41, 10] : List uint8_t) ∧
    ([[0x41, 10, 10], [10, 10]] : List (List uint8_t)).flatten = [0x41, 10] ++ EOT_MARKER ∧
    (trailing_lf [0x41, 10] ≤ 2 ∧
     (uart_receive_task initial_state [[0x41, 10, 10], [10, 10]]).ram_storage_size
       = ([0x41, 10] : List uint8_t).length - trailing_lf [0x41, 10] ∧
     (∀ i, i < ([0x41, 10] : List uint8_t).length →
       ram_read (uart_receive_task initial_state [[0x41, 10, 10], [10, 10]]).ram_storage i
         = ([0x41, 10] : List uint8_t)[i]?)) :=
  ⟨by decide, by decide, by decide,
   C1_payload_stored [0x41, 10] [[0x41, 10, 10], [10, 10]] (by decide) (by decide) (by decide)⟩

/-- C2: for every byte sequence `S` of length at most 2048 without three
consecutive `0x0A` bytes and whose last byte, if any, is not `0x0A`, the
receive loop run from the initial state on `S` followed by the marker, in any
chunking, ends in `STATE_SENDING` with `total_bytes_received = len S + 3`,
`ram_storage_size = len S` and `ram_storage[0..len S)` equal to `S`. -/
theorem C2_receive_end_to_end (S : List uint8_t) (chunks : List (List uint8_t))
    (hlen : S.length ≤ MAX_TEXT_SIZE) (hfree : ¬ EOT_MARKER <:+: S)
    (hlast : S.getLast? ≠ some 10)
    (hchunks : chunks.flatten = S ++ EOT_MARKER) :
    (uart_receive_task initial_state chunks).current_state = STATE_SENDING ∧
    (uart_receive_task initial_state chunks).total_bytes_received = S.length + 3 ∧
    (uart_receive_task initial_state chunks).ram_storage_size = S.length ∧
    (∀ i, i < S.length →
      ram_read (uart_receive_task initial_state chunks).ram_storage i = S[i]?) := by
  have hl : S.length + 3 < SIZE_MOD := by unfold MAX_TEXT_SIZE at hlen; unfold SIZE_MOD; omega
  have ht := trailing_lf_eq_zero_of_getLast S hlast
  obtain ⟨_, _, h3, _, h5, h6, h7, _⟩ := uart_receive_task_summary S chunks hfree hl hchunks
  rw [ht] at h5 h6
  exact ⟨h3, h5, h6, fun i hi => h7 i hi (by omega)⟩

/-- C2 at the input `[0x41, 0x42, 0x43, 0x0A, 0x0A, 0x0A]` of scenario 1:
size 3, stored bytes `0x41, 0x42, 0x43`, state Sending. -/
theorem C2_receive_end_to_end_witness :
    ([0x41, 0x42, 0x43] : List uint8_t).length ≤ MAX_TEXT_SIZE ∧
    ¬ EOT_MARKER <:+: ([0x41, 0x42, 0x43] : List uint8_t) ∧
    ([0x41, 0x42, 0x43] : List uint8_t).getLast? ≠ some 10 ∧
    ([[0x41, 0x42, 0x43, 0x0A, 0x0A, 0x0A]] : List (List uint8_t)).flatten
      = [0x41, 0x42, 0x43] ++ EOT_MARKER ∧
    ((uart_receive_task initial_state [[0x41, 0x42, 0x43, 0x0A, 0x0A, 0x0A]]).current_state
       = STATE_SENDING ∧
     (uart_receive_task initial_state [[0x41, 0x42, 0x43, 0x0A, 0x0A, 0x0A]]).total_bytes_received
       = ([0x41, 0x42, 0x43] : List uint8_t).length + 3 ∧
     (uart_receive_task initial_state [[0x41, 0x42, 0x43, 0x0A, 0x0A, 0x0A]]).ram_storage_size
       = ([0x41, 0x42, 0x43] : List uint8_t).length ∧
     (∀ i, i < ([0x41, 0x42, 0x43] : List uint8_t).length →
       ram_read (uart_receive_task initial_state
         [[0x41, 0x42, 0x43, 0x0A, 0x0A, 0x0A]]).ram_storage i
         = ([0x41, 0x42, 0x43] : List uint8_t)[i]?)) :=
  ⟨by decide, by decide, by decide, by decide,
   C2_receive_end_to_end [0x41, 0x42, 0x43] [[0x41, 0x42, 0x43, 0x0A, 0x0A, 0x0A]]
     (by decide) (by decide) (by decide) (by decide)⟩

theorem zero_window_cell (bs : List uint8_t) (n k : Nat) (hk : k ≤ n) (hn : n < bs.length) :
    ((eot_buffer_t.mk 0 0 0).toList ++ bs.take (n + 1)).getD (k + 3) 0 = 10 ↔
      bs[k]? = some 10 := by
  have hk2 : k < bs.length := by omega
  simp only [eot_buffer_t.toList, List.cons_append, List.nil_append, List.getD_cons_succ,
    List.getD_eq_getElem?_getD, List.getElem?_cons_succ]
  rw [List.getElem?_take_of_lt (by omega), List.getElem?_eq_getElem hk2]
  simp

/-- C3: when `check_eot` is called on the bytes `bs` one after the other,
starting with the zero-filled window, the call on the byte of index `n`
(counting from 0, so the call number `n + 1`) returns true exactly when
`n >= 2` and the bytes of index `n - 2`, `n - 1` and `n` are all `0x0A`. -/
theorem C3_check_eot_window (s : State) (bs : List uint8_t) (n : Nat)
    (hz : s.eot_buffer = ⟨0, 0, 0⟩) (hn : n < bs.length) :
    (check_eot_calls s bs).1[n]? =
      some (decide (2 ≤ n ∧ bs[n - 2]? = some 10 ∧ bs[n - 1]? = some 10 ∧
        bs[n]? = some 10)) := by
  rw [check_eot_calls_result s bs n hn, hz]
  congr 1
  rw [Bool.eq_iff_iff, is_marker_cells, window_after_cells, decide_eq_true_iff]
  have hlen : (bs.take (n + 1)).length = n + 1 := by
    rw [List.length_take]; omega
  simp only [hlen]
  match n, hn with
  | 0, hn =>
    simp [eot_buffer_t.toList]
  | 1, hn =>
    simp [eot_buffer_t.toList]
  | m + 2, hn =>
    have h0 := zero_window_cell bs (m + 2) m (by omega) hn
    have h1 := zero_window_cell bs (m + 2) (m + 1) (by omega) hn
    have h2 := zero_window_cell bs (m + 2) (m + 2) (by omega) hn
    have e1 : m + 2 + 1 + 1 = m + 1 + 3 := by omega
    have e2 : m + 2 + 1 + 2 = m + 2 + 3 := by omega
    have e3 : m + 2 - 2 = m := by omega
    have e4 : m + 2 - 1 = m + 1 := by omega
    rw [e1, e2, e3, e4, h0, h1, h2]
    simp

/-- C3 on the bytes `0x41, 0x0A, 0x0A, 0x0A`: the fourth call (index 3). -/
theorem C3_check_eot_window_witness :
    initial_state.eot_buffer = ⟨0, 0, 0⟩ ∧
    3 < ([0x41, 10, 10, 10] : List uint8_t).length ∧
    (check_eot_calls initial_state [0x41, 10, 10, 10]).1[3]? =
      some (decide (2 ≤ 3 ∧ ([0x41, 10, 10, 10] : List uint8_t)[3 - 2]? = some 10 ∧
        ([0x41, 10, 10, 10] : List uint8_t)[3 - 1]? = some 10 ∧
        ([0x41, 10, 10, 10] : List uint8_t)[3]? = some 10)) :=
  ⟨rfl, by decide, C3_check_eot_window initial_state [0x41, 10, 10, 10] 3 rfl (by decide)⟩

/-- C4: if, on the bytes received from the initial state (fewer than `2 ^ 32`),
the byte of index `i` is the first on which `check_eot` returns true, then the
receive loop ends with `total_bytes_received = i + 1`, which is at least 3,
`ram_storage_size = total_bytes_received - 3` and `current_state =
STATE_SENDING`. -/
theorem C4_trim_on_match (chunks : List (List uint8_t)) (i : Nat)
    (hlen : chunks.flatten.length < SIZE_MOD)
    (hi : (check_eot_calls initial_state chunks.flatten).1[i]? = some true)
    (hfirst : ∀ j, j < i →
      (check_eot_calls initial_state chunks.flatten).1[j]? = some false) :
    (uart_receive_task initial_state chunks).total_bytes_received = i + 1 ∧
    3 ≤ (uart_receive_task initial_state chunks).total_bytes_received ∧
    (uart_receive_task initial_state chunks).ram_storage_size
      = (uart_receive_task initial_state chunks).total_bytes_received - 3 ∧
    (uart_receive_task initial_state chunks).current_state = STATE_SENDING := by
  have hil : i < chunks.flatten.length := by
    by_contra hc
    rw [List.getElem?_eq_none (by rw [check_eot_calls_length]; omega)] at hi
    exact Option.noConfusion hi
  rw [check_eot_calls_result _ _ i hil] at hi
  have hi2 : is_marker (window_after initial_state.eot_buffer (chunks.flatten.take (i + 1)))
      = true := by simpa using hi
  have htake : chunks.flatten.take (i + 1) = chunks.flatten.take i ++ [chunks.flatten[i]] := by
    rw [List.take_succ, List.getElem?_eq_getElem hil]; rfl
  have hq : quiet initial_state.eot_buffer (chunks.flatten.take i) := by
    apply quiet_of_forall
    intro j hj
    have hj2 : j < i := by
      rw [List.length_take] at hj; omega
    have := hfirst j hj2
    rw [check_eot_calls_result _ _ j (by omega)] at this
    rw [List.take_take, Nat.min_eq_left (by omega)]
    simpa using this
  have hsplit : chunks.flatten =
      chunks.flatten.take i ++ chunks.flatten[i] :: chunks.flatten.drop (i + 1) := by
    rw [← List.drop_eq_getElem_cons hil, List.take_append_drop]
  have hrun : uart_receive_task initial_state chunks =
      on_eot (received (chunks.flatten.take (i + 1))) := by
    rw [uart_receive_task_join _ _ rfl rfl]
    conv_lhs => rw [hsplit]
    rw [process_chunk_first_hit initial_state _ _ _ hq
      (by rw [window_after_concat, ← htake]; exact hi2), ← htake, feed_initial]
    rw [List.length_take]; omega
  have hge : 3 ≤ i + 1 := by
    have h1 : is_marker (window_after ⟨0, 0, 0⟩ (chunks.flatten.take (i + 1))) = true := hi2
    rw [is_marker_window_after, decide_eq_true_iff] at h1
    have h2 := trailing_lf_le_length (chunks.flatten.take (i + 1))
    rw [List.length_take] at h2
    omega
  have htot : (on_eot (received (chunks.flatten.take (i + 1)))).total_bytes_received = i + 1 := by
    rw [on_eot_total_bytes_received, received_total_bytes_received, List.length_take]
    omega
  rw [hrun, htot]
  refine ⟨rfl, hge, ?_, rfl⟩
  rw [on_eot_ram_storage_size, received_total_bytes_received, List.length_take,
    Nat.min_eq_left (by omega)]
  unfold SIZE_MOD EOT_MARKER_LEN at *
  omega

/-- C4 on the stream `0x41, 0x0A | 0x0A, 0x0A, 0x42`, where the first match is
on the byte of index 3. -/
theorem C4_trim_on_match_witness :
    ([[0x41, 10], [10, 10, 0x42]] : List (List uint8_t)).flatten.length < SIZE_MOD ∧
    (check_eot_calls initial_state
      ([[0x41, 10], [10, 10, 0x42]] : List (List uint8_t)).flatten).1[3]? = some true ∧
    (∀ j, j < 3 → (check_eot_calls initial_state
      ([[0x41, 10], [10, 10, 0x42]] : List (List uint8_t)).flatten).1[j]? = some false) ∧
    ((uart_receive_task initial_state [[0x41, 10], [10, 10, 0x42]]).total_bytes_received
       = 3 + 1 ∧
     3 ≤ (uart_receive_task initial_state [[0x41, 10], [10, 10, 0x42]]).total_bytes_received ∧
     (uart_receive_task initial_state [[0x41, 10], [10, 10, 0x42]]).ram_storage_size
       = (uart_receive_task initial_state
           [[0x41, 10], [10, 10, 0x42]]).total_bytes_received - 3 ∧
     (uart_receive_task initial_state [[0x41, 10], [10, 10, 0x42]]).current_state
       = STATE_SENDING) :=
  ⟨by decide, by decide, by decide,
   C4_trim_on_match [[0x41, 10], [10, 10, 0x42]] 3 (by decide) (by decide) (by decide)⟩

/-- C5: for every state, byte `b` and position `p < 2048`, `store_byte b p`
leaves `b` in `ram_storage[p]`, sets `ram_storage_size` to `p + 1`, leaves
every other cell of `ram_storage` as it was, and logs nothing. -/
theorem C5_store_byte_in_range (s : State) (b : uint8_t) (p : Nat)
    (hp : p < MAX_TEXT_SIZE) :
    ram_read (store_byte s b p).ram_storage p = some b ∧
    (store_byte s b p).ram_storage_size = p + 1 ∧
    (∀ q, q ≠ p → ram_read (store_byte s b p).ram_storage q = ram_read s.ram_storage q) ∧
    (store_byte s b p).log = s.log := by
  unfold store_byte
  rw [dif_pos hp]
  refine ⟨?_, rfl, ?_, rfl⟩
  · unfold ram_read
    rw [dif_pos hp]
    simp
  · intro q hq
    unfold ram_read
    by_cases hq2 : q < MAX_TEXT_SIZE
    · rw [dif_pos hq2, dif_pos hq2]
      have hne : (⟨q, hq2⟩ : Fin MAX_TEXT_SIZE) ≠ ⟨p, hp⟩ := fun h => hq (Fin.mk.inj h)
      simp [Function.update_noteq hne]
    · rw [dif_neg hq2, dif_neg hq2]

/-- C5 at the initial state, byte `0x41`, position 5. -/
theorem C5_store_byte_in_range_witness :
    5 < MAX_TEXT_SIZE ∧
    (ram_read (store_byte initial_state 0x41 5).ram_storage 5 = some 0x41 ∧
     (store_byte initial_state 0x41 5).ram_storage_size = 5 + 1 ∧
     (∀ q, q ≠ 5 → ram_read (store_byte initial_state 0x41 5).ram_storage q
        = ram_read initial_state.ram_storage q) ∧
     (store_byte initial_state 0x41 5).log = initial_state.log) :=
  ⟨by decide, C5_store_byte_in_range initial_state 0x41 5 (by decide)⟩

/-- C6: for every state, byte `b` and position `p >= 2048`, `store_byte b p`
takes the overflow branch: it logs one storage-overflow error for `p` and
leaves every other global, in particular `ram_storage_size` and all of
`ram_storage`, as before the call. -/
theorem C6_store_byte_overflow (s : State) (b : uint8_t) (p : Nat)
    (hp : MAX_TEXT_SIZE ≤ p) :
    store_byte s b p = { s with log := s.log ++ [log_error.storage_overflow p] } ∧
    (store_byte s b p).ram_storage_size = s.ram_storage_size ∧
    (store_byte s b p).ram_storage = s.ram_storage ∧
    overflow_count (store_byte s b p).log = overflow_count s.log + 1 := by
  have h : store_byte s b p = { s with log := s.log ++ [log_error.storage_overflow p] } := by
    unfold store_byte
    rw [dif_neg (by omega)]
  rw [h]
  refine ⟨rfl, rfl, rfl, ?_⟩
  simp [overflow_count, List.countP_append]

/-- C6 at the initial state, byte `0x41`, position 2048 (the capacity). -/
theorem C6_store_byte_overflow_witness :
    MAX_TEXT_SIZE ≤ 2048 ∧
    (store_byte initial_state 0x41 2048 =
       { initial_state with
         log := initial_state.log ++ [log_error.storage_overflow 2048] } ∧
     (store_byte initial_state 0x41 2048).ram_storage_size = initial_state.ram_storage_size ∧
     (store_byte initial_state 0x41 2048).ram_storage = initial_state.ram_storage ∧
     overflow_count (store_byte initial_state 0x41 2048).log
       = overflow_count initial_state.log + 1) :=
  ⟨by decide, C6_store_byte_overflow initial_state 0x41 2048 (by decide)⟩

/-- C7: for every state and position `p`: if `p < ram_storage_size` then
`retrieve_byte p` returns the value of the read `ram_storage[p]` (the stored
byte whenever `p` is inside the array) and changes nothing; if
`p >= ram_storage_size` it logs one out-of-range error and returns 0 whatever
the contents of `ram_storage`, leaving the store unchanged. -/
theorem C7_retrieve_byte (s : State) (p : Nat) :
    (p < s.ram_storage_size →
      retrieve_byte s p = (ram_read s.ram_storage p, s) ∧
      ∀ h : p < MAX_TEXT_SIZE, (retrieve_byte s p).1 = some (s.ram_storage ⟨p, h⟩)) ∧
    (s.ram_storage_size ≤ p →
      (∀ ram, (retrieve_byte { s with ram_storage := ram } p).1 = some 0) ∧
      (retrieve_byte s p).2 = { s with log := s.log ++ [log_error.retrieve_beyond p] }) := by
  constructor
  · intro hp
    have h : retrieve_byte s p = (ram_read s.ram_storage p, s) := by
      unfold retrieve_byte
      rw [if_pos hp]
    refine ⟨h, ?_⟩
    intro hp2
    rw [h]
    unfold ram_read
    rw [dif_pos hp2]
  · intro hp
    refine ⟨?_, ?_⟩
    · intro ram
      unfold retrieve_byte
      rw [if_neg (by simpa using hp)]
    · unfold retrieve_byte
      rw [if_neg (by omega)]

/-- C7 on the state reached by storing `0x41` at position 0 (size 1): a read
below the size (position 0) and a read at the size (position 1). -/
theorem C7_retrieve_byte_witness :
    (0 < (store_byte initial_state 0x41 0).ram_storage_size ∧
     (retrieve_byte (store_byte initial_state 0x41 0) 0
        = (ram_read (store_byte initial_state 0x41 0).ram_storage 0,
           store_byte initial_state 0x41 0) ∧
      ∀ h : 0 < MAX_TEXT_SIZE, (retrieve_byte (store_byte initial_state 0x41 0) 0).1
        = some ((store_byte initial_state 0x41 0).ram_storage ⟨0, h⟩))) ∧
    ((store_byte initial_state 0x41 0).ram_storage_size ≤ 1 ∧
     ((∀ ram, (retrieve_byte { store_byte initial_state 0x41 0 with ram_storage := ram } 1).1
        = some 0) ∧
      (retrieve_byte (store_byte initial_state 0x41 0) 1).2
        = { store_byte initial_state 0x41 0 with
            log := (store_byte initial_state 0x41 0).log ++ [log_error.retrieve_beyond 1] })) :=
  ⟨⟨by decide, (C7_retrieve_byte (store_byte initial_state 0x41 0) 0).1 (by decide)⟩,
   ⟨by decide, (C7_retrieve_byte (store_byte initial_state 0x41 0) 1).2 (by decide)⟩⟩

theorem trailing_lf_eq_zero_of_not_mem (S : List uint8_t) (h : (10 : uint8_t) ∉ S) :
    trailing_lf S = 0 := by
  by_contra hc
  obtain ⟨k, hk⟩ : ∃ k, trailing_lf S = k + 1 := ⟨trailing_lf S - 1, by omega⟩
  have hs := replicate_trailing_lf_suffix S
  rw [hk] at hs
  exact h (hs.subset (by simp [List.replicate_succ]))

theorem not_mem_replicate (n : Nat) (a : uint8_t) (ha : a ≠ 10) :
    (10 : uint8_t) ∉ List.replicate n a := by
  intro h
  exact ha (List.eq_of_mem_replicate h).symm

/-- C8, failing input: 2049 bytes `0x41` followed by the marker, received in
chunks of at most `BUF_SIZE` bytes.  The trim step leaves `ram_storage_size`
at 2049, above `MAX_TEXT_SIZE`; a later `retrieve_byte(2048)` passes the size
check and reads outside `ram_storage`. -/
theorem C8_size_above_capacity :
    (List.replicate 1024 (0x41 : uint8_t)).length ≤ BUF_SIZE ∧
    (uart_receive_task initial_state
      [List.replicate 1024 0x41, List.replicate 1024 0x41, [0x41, 10, 10, 10]]).ram_storage_size
      = 2049 ∧
    MAX_TEXT_SIZE < (uart_receive_task initial_state
      [List.replicate 1024 0x41, List.replicate 1024 0x41, [0x41, 10, 10, 10]]).ram_storage_size ∧
    (retrieve_byte (uart_receive_task initial_state
      [List.replicate 1024 0x41, List.replicate 1024 0x41, [0x41, 10, 10, 10]]) 2048).1
      = none := by
  have hmem := not_mem_replicate 2049 0x41 (by decide)
  have hflat : ([List.replicate 1024 0x41, List.replicate 1024 0x41, [0x41, 10, 10, 10]] :
      List (List uint8_t)).flatten = List.replicate 2049 0x41 ++ EOT_MARKER := by
    have e : ([0x41, 10, 10, 10] : List uint8_t) = List.replicate 1 0x41 ++ EOT_MARKER := rfl
    rw [e, show (2049 : Nat) = 1024 + 1024 + 1 from rfl, List.replicate_add, List.replicate_add]
    simp only [List.flatten_cons, List.flatten_nil, List.append_nil, List.append_assoc]
  obtain ⟨_, _, _, _, _, h6, _, _⟩ := uart_receive_task_summary (List.replicate 2049 0x41) _
    (marker_not_infix_of_not_mem _ hmem)
    (by rw [List.length_replicate]; unfold SIZE_MOD; omega) hflat
  rw [trailing_lf_eq_zero_of_not_mem _ hmem, List.length_replicate] at h6
  have hsize : (uart_receive_task initial_state
      [List.replicate 1024 0x41, List.replicate 1024 0x41, [0x41, 10, 10, 10]]).ram_storage_size
      = 2049 := h6
  refine ⟨by rw [List.length_replicate]; unfold BUF_SIZE; omega, hsize,
    by rw [hsize]; decide, ?_⟩
  unfold retrieve_byte
  rw [if_pos (by rw [hsize]; decide)]
  rfl

/-- C9, as stated, fails: for the payload of 2048 bytes `0x41` (marker-free,
length exactly `MAX_TEXT_SIZE`) followed by the marker, `store_byte` takes its
overflow branch three times, once for each marker byte. -/
theorem C9_overflow_counterexample :
    (List.replicate 2048 (0x41 : uint8_t)).length = MAX_TEXT_SIZE ∧
    ¬ EOT_MARKER <:+: List.replicate 2048 (0x41 : uint8_t) ∧
    ([List.replicate 1024 0x41, List.replicate 1024 0x41, [10, 10, 10]] :
      List (List uint8_t)).flatten = List.replicate 2048 0x41 ++ EOT_MARKER ∧
    overflow_count (uart_receive_task initial_state
      [List.replicate 1024 0x41, List.replicate 1024 0x41, [10, 10, 10]]).log = 3 := by
  have hmem := not_mem_replicate 2048 0x41 (by decide)
  have hflat : ([List.replicate 1024 0x41, List.replicate 1024 0x41, [10, 10, 10]] :
      List (List uint8_t)).flatten = List.replicate 2048 0x41 ++ EOT_MARKER := by
    rw [show (2048 : Nat) = 1024 + 1024 from rfl, List.replicate_add]
    simp only [List.flatten_cons, List.flatten_nil, List.append_nil, List.append_assoc]
    rfl
  obtain ⟨_, _, _, _, _, _, _, h8⟩ := uart_receive_task_summary (List.replicate 2048 0x41) _
    (marker_not_infix_of_not_mem _ hmem)
    (by rw [List.length_replicate]; unfold SIZE_MOD; omega) hflat
  rw [trailing_lf_eq_zero_of_not_mem _ hmem, List.length_replicate] at h8
  exact ⟨List.length_replicate _ _, marker_not_infix_of_not_mem _ hmem, hflat, h8⟩

/-- C9 (amended): for every marker-free payload `S` of length exactly 2048, the
receive loop run from the initial state on `S` followed by the marker, in any
chunking, stores the full payload (`ram_storage[0..2048)` equals `S`), takes
the overflow branch of `store_byte` exactly `3 - t` times and ends with
`ram_storage_size = 2048 - t`, where `t <= 2` is the number of `0x0A` bytes at
the end of `S`. -/
theorem C9_payload_at_capacity (S : List uint8_t) (chunks : List (List uint8_t))
    (hlen : S.length = MAX_TEXT_SIZE) (hfree : ¬ EOT_MARKER <:+: S)
    (hchunks : chunks.flatten = S ++ EOT_MARKER) :
    trailing_lf S ≤ 2 ∧
    overflow_count (uart_receive_task initial_state chunks).log = 3 - trailing_lf S ∧
    (∀ i, i < MAX_TEXT_SIZE →
      ram_read (uart_receive_task initial_state chunks).ram_storage i = S[i]?) ∧
    (uart_receive_task initial_state chunks).ram_storage_size
      = MAX_TEXT_SIZE - trailing_lf S := by
  have hl : S.length + 3 < SIZE_MOD := by
    rw [hlen]; unfold MAX_TEXT_SIZE SIZE_MOD; omega
  obtain ⟨h1, _, _, _, _, h6, h7, h8⟩ := uart_receive_task_summary S chunks hfree hl hchunks
  rw [hlen] at h6 h8
  refine ⟨h1, ?_, fun i hi => h7 i (by omega) hi, h6⟩
  rw [h8]
  omega

/-- C9 (amended) at the payload of 2048 bytes `0x42`, received in three
chunks. -/
theorem C9_payload_at_capacity_witness :
    (List.replicate 2048 (0x42 : uint8_t)).length = MAX_TEXT_SIZE ∧
    ¬ EOT_MARKER <:+: List.replicate 2048 (0x42 : uint8_t) ∧
    ([List.replicate 1024 0x42, List.replicate 1024 0x42, [10, 10, 10]] :
      List (List uint8_t)).flatten = List.replicate 2048 0x42 ++ EOT_MARKER ∧
    (trailing_lf (List.replicate 2048 0x42) ≤ 2 ∧
     overflow_count (uart_receive_task initial_state
       [List.replicate 1024 0x42, List.replicate 1024 0x42, [10, 10, 10]]).log
       = 3 - trailing_lf (List.replicate 2048 0x42) ∧
     (∀ i, i < MAX_TEXT_SIZE →
       ram_read (uart_receive_task initial_state
         [List.replicate 1024 0x42, List.replicate 1024 0x42, [10, 10, 10]]).ram_storage i
         = (List.replicate 2048 (0x42 : uint8_t))[i]?) ∧
     (uart_receive_task initial_state
       [List.replicate 1024 0x42, List.replicate 1024 0x42, [10, 10, 10]]).ram_storage_size
       = MAX_TEXT_SIZE - trailing_lf (List.replicate 2048 0x42)) :=
  have hflat : ([List.replicate 1024 0x42, List.replicate 1024 0x42, [10, 10, 10]] :
      List (List uint8_t)).flatten = List.replicate 2048 0x42 ++ EOT_MARKER := by
    rw [show (2048 : Nat) = 1024 + 1024 from rfl, List.replicate_add]
    simp only [List.flatten_cons, List.flatten_nil, List.append_nil, List.append_assoc]
    rfl
  ⟨List.length_replicate _ _,
   marker_not_infix_of_not_mem _ (not_mem_replicate 2048 0x42 (by decide)),
   hflat,
   C9_payload_at_capacity (List.replicate 2048 0x42)
     [List.replicate 1024 0x42, List.replicate 1024 0x42, [10, 10, 10]]
     (List.length_replicate _ _)
     (marker_not_infix_of_not_mem _ (not_mem_replicate 2048 0x42 (by decide))) hflat⟩

/-- C10, as stated, fails: for the payload of 2058 bytes `0x41` followed by the
marker there are 13 storage-overflow signals, not 10 (the three marker bytes
overflow too), and `ram_storage_size` ends at 2058, not 2048. -/
theorem C10_overflow_counterexample :
    (List.replicate 2058 (0x41 : uint8_t)).length = MAX_TEXT_SIZE + 10 ∧
    ¬ EOT_MARKER <:+: List.replicate 2058 (0x41 : uint8_t) ∧
    ([List.replicate 1024 0x41, List.replicate 1024 0x41,
      List.replicate 10 0x41 ++ [10, 10, 10]] : List (List uint8_t)).flatten
      = List.replicate 2058 0x41 ++ EOT_MARKER ∧
    overflow_count (uart_receive_task initial_state
      [List.replicate 1024 0x41, List.replicate 1024 0x41,
       List.replicate 10 0x41 ++ [10, 10, 10]]).log = 13 ∧
    (uart_receive_task initial_state
      [List.replicate 1024 0x41, List.replicate 1024 0x41,
       List.replicate 10 0x41 ++ [10, 10, 10]]).ram_storage_size = 2058 := by
  have hmem := not_mem_replicate 2058 0x41 (by decide)
  have hflat : ([List.replicate 1024 0x41, List.replicate 1024 0x41,
      List.replicate 10 0x41 ++ [10, 10, 10]] : List (List uint8_t)).flatten
      = List.replicate 2058 0x41 ++ EOT_MARKER := by
    rw [show (2058 : Nat) = 1024 + 1024 + 10 from rfl, List.replicate_add, List.replicate_add]
    simp only [List.flatten_cons, List.flatten_nil, List.append_nil, List.append_assoc]
    rfl
  obtain ⟨_, _, _, _, _, h6, _, h8⟩ := uart_receive_task_summary (List.replicate 2058 0x41) _
    (marker_not_infix_of_not_mem _ hmem)
    (by rw [List.length_replicate]; unfold SIZE_MOD; omega) hflat
  rw [trailing_lf_eq_zero_of_not_mem _ hmem, List.length_replicate] at h6 h8
  exact ⟨List.length_replicate _ _, marker_not_infix_of_not_mem _ hmem, hflat, h8, h6⟩

/-- C10 (amended): for every marker-free payload `S` of length 2048 + 10, the
receive loop run from the initial state on `S` followed by the marker, in any
chunking, takes the overflow branch of `store_byte` exactly `13 - t` times,
where `t <= 2` is the number of `0x0A` bytes at the end of `S`, and
`ram_storage` holds exactly the first 2048 bytes of `S`. -/
theorem C10_payload_above_capacity (S : List uint8_t) (chunks : List (List uint8_t))
    (hlen : S.length = MAX_TEXT_SIZE + 10) (hfree : ¬ EOT_MARKER <:+: S)
    (hchunks : chunks.flatten = S ++ EOT_MARKER) :
    trailing_lf S ≤ 2 ∧
    overflow_count (uart_receive_task initial_state chunks).log = 13 - trailing_lf S ∧
    (∀ i, i < MAX_TEXT_SIZE →
      ram_read (uart_receive_task initial_state chunks).ram_storage i = S[i]?) := by
  have hl : S.length + 3 < SIZE_MOD := by
    rw [hlen]; unfold MAX_TEXT_SIZE SIZE_MOD; omega
  obtain ⟨h1, _, _, _, _, _, h7, h8⟩ := uart_receive_task_summary S chunks hfree hl hchunks
  rw [hlen] at h8
  refine ⟨h1, ?_, fun i hi => h7 i (by omega) hi⟩
  rw [h8]
  omega

/-- C10 (amended) at the payload of 2058 bytes `0x42`, received in three
chunks. -/
theorem C10_payload_above_capacity_witness :
    (List.replicate 2058 (0x42 : uint8_t)).length = MAX_TEXT_SIZE + 10 ∧
    ¬ EOT_MARKER <:+: List.replicate 2058 (0x42 : uint8_t) ∧
    ([List.replicate 1024 0x42, List.replicate 1024 0x42,
      List.replicate 10 0x42 ++ [10, 10, 10]] : List (List uint8_t)).flatten
      = List.replicate 2058 0x42 ++ EOT_MARKER ∧
    (trailing_lf (List.replicate 2058 0x42) ≤ 2 ∧
     overflow_count (uart_receive_task initial_state
       [List.replicate 1024 0x42, List.replicate 1024 0x42,
        List.replicate 10 0x42 ++ [10, 10, 10]]).log
       = 13 - trailing_lf (List.replicate 2058 0x42) ∧
     (∀ i, i < MAX_TEXT_SIZE →
       ram_read (uart_receive_task initial_state
         [List.replicate 1024 0x42, List.replicate 1024 0x42,
          List.replicate 10 0x42 ++ [10, 10, 10]]).ram_storage i
         = (List.replicate 2058 (0x42 : uint8_t))[i]?)) :=
  have hflat : ([List.replicate 1024 0x42, List.replicate 1024 0x42,
      List.replicate 10 0x42 ++ [10, 10, 10]] : List (List uint8_t)).flatten
      = List.replicate 2058 0x42 ++ EOT_MARKER := by
    rw [show (2058 : Nat) = 1024 + 1024 + 10 from rfl, List.replicate_add, List.replicate_add]
    simp only [List.flatten_cons, List.flatten_nil, List.append_nil, List.append_assoc]
    rfl
  ⟨List.length_replicate _ _,
   marker_not_infix_of_not_mem _ (not_mem_replicate 2058 0x42 (by decide)),
   hflat,
   C10_payload_above_capacity (List.replicate 2058 0x42)
     [List.replicate 1024 0x42, List.replicate 1024 0x42,
      List.replicate 10 0x42 ++ [10, 10, 10]]
     (List.length_replicate _ _)
     (marker_not_infix_of_not_mem _ (not_mem_replicate 2058 0x42 (by decide))) hflat⟩

/-! ### More on the receive loop: first match, window contents -/

theorem feed_end_of_transmission (s : State) (l : List uint8_t) :
    (feed s l).end_of_transmission = s.end_of_transmission := by
  induction l generalizing s with
  | nil => rfl
  | cons b l ih => rw [feed_cons, ih, receive_byte_end_of_transmission]

theorem feed_current_state (s : State) (l : List uint8_t) :
    (feed s l).current_state = s.current_state := by
  induction l generalizing s with
  | nil => rfl
  | cons b l ih => rw [feed_cons, ih, receive_byte_current_state]

/-- Either the detector never fires on the bytes of `l`, or there is a first
byte on which it fires and the `for` loop stops there. -/
theorem process_chunk_cases (s : State) (l : List uint8_t) :
    (quiet s.eot_buffer l ∧ process_chunk s l = feed s l) ∨
    (∃ pre b rest, l = pre ++ b :: rest ∧ quiet s.eot_buffer pre ∧
      is_marker (shift_window (window_after s.eot_buffer pre) b) = true ∧
      process_chunk s l = on_eot (feed s (pre ++ [b]))) := by
  induction l generalizing s with
  | nil => exact Or.inl ⟨trivial, rfl⟩
  | cons b l ih =>
    by_cases hb : is_marker (shift_window s.eot_buffer b) = true
    · exact Or.inr ⟨[], b, l, rfl, trivial, hb, process_chunk_hit s b l hb⟩
    · have hb2 : is_marker (shift_window s.eot_buffer b) = false := by simpa using hb
      have hq1 : quiet s.eot_buffer [b] := ⟨hb2, trivial⟩
      have hstep : process_chunk s (b :: l) = process_chunk (receive_byte s b).2 l :=
        process_chunk_quiet s [b] l hq1
      rcases ih (receive_byte s b).2 with ⟨hq, he⟩ | ⟨pre, c, rest, hl, hq, hm, he⟩
      · rw [receive_byte_eot_buffer] at hq
        exact Or.inl ⟨⟨hb2, hq⟩, by rw [hstep, he, feed_cons]⟩
      · rw [receive_byte_eot_buffer] at hq hm
        refine Or.inr ⟨b :: pre, c, rest, by rw [hl]; rfl, ⟨hb2, hq⟩, hm, ?_⟩
        rw [hstep, he]
        rfl

/-- When index `i` is the first on which `check_eot` returns true, the receive
loop ends with the trim step applied to the globals after `i + 1` bytes. -/
theorem uart_receive_task_first_match (chunks : List (List uint8_t)) (i : Nat)
    (hi : (check_eot_calls initial_state chunks.flatten).1[i]? = some true)
    (hfirst : ∀ j, j < i →
      (check_eot_calls initial_state chunks.flatten).1[j]? = some false) :
    uart_receive_task initial_state chunks =
      on_eot (feed initial_state (chunks.flatten.take (i + 1))) := by
  have hil : i < chunks.flatten.length := by
    by_contra hc
    rw [List.getElem?_eq_none (by rw [check_eot_calls_length]; omega)] at hi
    exact Option.noConfusion hi
  rw [check_eot_calls_result _ _ i hil] at hi
  have hi2 : is_marker (window_after initial_state.eot_buffer (chunks.flatten.take (i + 1)))
      = true := by simpa using hi
  have htake : chunks.flatten.take (i + 1) = chunks.flatten.take i ++ [chunks.flatten[i]] := by
    rw [List.take_succ, List.getElem?_eq_getElem hil]; rfl
  have hq : quiet initial_state.eot_buffer (chunks.flatten.take i) := by
    apply quiet_of_forall
    intro j hj
    have hj2 : j < i := by
      rw [List.length_take] at hj; omega
    have := hfirst j hj2
    rw [check_eot_calls_result _ _ j (by omega)] at this
    rw [List.take_take, Nat.min_eq_left (by omega)]
    simpa using this
  have hsplit : chunks.flatten =
      chunks.flatten.take i ++ chunks.flatten[i] :: chunks.flatten.drop (i + 1) := by
    rw [← List.drop_eq_getElem_cons hil, List.take_append_drop]
  rw [uart_receive_task_join _ _ rfl rfl]
  conv_lhs => rw [hsplit]
  rw [process_chunk_first_hit initial_state _ _ _ hq
    (by rw [window_after_concat, ← htake]; exact hi2), ← htake]

theorem check_eot_calls_eot_buffer (s : State) (bs : List uint8_t) :
    (check_eot_calls s bs).2.eot_buffer = window_after s.eot_buffer bs := by
  induction bs generalizing s with
  | nil => rfl
  | cons b bs ih =>
    rw [check_eot_calls, check_eot_eq]
    simp only []
    rw [ih]
    rfl

theorem window_after_toList (w : eot_buffer_t) (l : List uint8_t) :
    (window_after w l).toList = (w.toList ++ l).drop l.length := by
  induction l generalizing w with
  | nil => simp [window_after, eot_buffer_t.toList]
  | cons a l ih =>
    show (window_after (shift_window w a) l).toList = _
    rw [ih]
    simp [shift_window, eot_buffer_t.toList]

theorem feed_total_bytes_received (s : State) (l : List uint8_t) :
    (feed s l).total_bytes_received % SIZE_MOD =
      (s.total_bytes_received + l.length) % SIZE_MOD := by
  induction l generalizing s with
  | nil => rfl
  | cons b l ih =>
    have h1 : (receive_byte s b).2.total_bytes_received =
        (s.total_bytes_received + 1) % SIZE_MOD := by
      unfold receive_byte store_byte
      split <;> rfl
    rw [feed_cons, ih, h1, List.length_cons, Nat.add_mod, Nat.mod_mod, ← Nat.add_mod]
    congr 1
    omega

/-- C11: two chunk lists with the same concatenation (empty chunks stand for
read timeouts) drive the receive loop, from the initial state, to the same
final globals; in particular the terminator is detected at the same value of
`total_bytes_received`, and `current_state`, `ram_storage_size`, `ram_storage`
and `eot_buffer` agree. -/
theorem C11_chunking_irrelevant (c1 c2 : List (List uint8_t))
    (h : c1.flatten = c2.flatten) :
    uart_receive_task initial_state c1 = uart_receive_task initial_state c2 := by
  rw [uart_receive_task_join _ _ rfl rfl, uart_receive_task_join _ _ rfl rfl, h]

/-- C11 on the stream `0x41, 0x0A, 0x0A, 0x0A, 0x42`, once split in four chunks
with a timeout in between and once received in one piece. -/
theorem C11_chunking_irrelevant_witness :
    ([[0x41], [], [10, 10], [10, 0x42]] : List (List uint8_t)).flatten
      = ([[0x41, 10, 10, 10, 0x42]] : List (List uint8_t)).flatten ∧
    uart_receive_task initial_state [[0x41], [], [10, 10], [10, 0x42]]
      = uart_receive_task initial_state [[0x41, 10, 10, 10, 0x42]] :=
  ⟨by decide,
   C11_chunking_irrelevant [[0x41], [], [10, 10], [10, 0x42]] [[0x41, 10, 10, 10, 0x42]]
     (by decide)⟩

/-- C17: if index `i` is the first on which `check_eot` returns true for the
stream of `c1`, and the stream of `c2` agrees with it up to and including that
byte, then the receive loop ends with the same globals on both: the bytes
after the match, in the same chunk or in later chunks, have no effect. -/
theorem C17_bytes_after_match_ignored (c1 c2 : List (List uint8_t)) (i : Nat)
    (hi : (check_eot_calls initial_state c1.flatten).1[i]? = some true)
    (hfirst : ∀ j, j < i →
      (check_eot_calls initial_state c1.flatten).1[j]? = some false)
    (hagree : c2.flatten.take (i + 1) = c1.flatten.take (i + 1)) :
    uart_receive_task initial_state c2 = uart_receive_task initial_state c1 := by
  have hil : i < c1.flatten.length := by
    by_contra hc
    rw [List.getElem?_eq_none (by rw [check_eot_calls_length]; omega)] at hi
    exact Option.noConfusion hi
  have hil2 : i < c2.flatten.length := by
    have h1 := congrArg List.length hagree
    rw [List.length_take, List.length_take] at h1
    omega
  have htake : ∀ j, j ≤ i → c2.flatten.take (j + 1) = c1.flatten.take (j + 1) := by
    intro j hj
    have h1 : c2.flatten.take (j + 1) = (c2.flatten.take (i + 1)).take (j + 1) := by
      rw [List.take_take, Nat.min_eq_left (by omega)]
    have h2 : c1.flatten.take (j + 1) = (c1.flatten.take (i + 1)).take (j + 1) := by
      rw [List.take_take, Nat.min_eq_left (by omega)]
    rw [h1, h2, hagree]
  have hres : ∀ j, j ≤ i → (check_eot_calls initial_state c2.flatten).1[j]? =
      (check_eot_calls initial_state c1.flatten).1[j]? := by
    intro j hj
    rw [check_eot_calls_result _ _ j (by omega), check_eot_calls_result _ _ j (by omega),
      htake j hj]
  rw [uart_receive_task_first_match c1 i hi hfirst,
    uart_receive_task_first_match c2 i (by rw [hres i (Nat.le_refl i)]; exact hi)
      (fun j hj => by rw [hres j (by omega)]; exact hfirst j hj),
    hagree]

/-- C17 on two inputs that agree up to the first match (index 3) and differ
afterwards, in the same chunk and in a later one. -/
theorem C17_bytes_after_match_ignored_witness :
    (check_eot_calls initial_state
      ([[0x41, 10, 10, 10, 0x42]] : List (List uint8_t)).flatten).1[3]? = some true ∧
    (∀ j, j < 3 → (check_eot_calls initial_state
      ([[0x41, 10, 10, 10, 0x42]] : List (List uint8_t)).flatten).1[j]? = some false) ∧
    ([[0x41, 10, 10, 10, 0x43, 0x44], [0x45]] : List (List uint8_t)).flatten.take (3 + 1)
      = ([[0x41, 10, 10, 10, 0x42]] : List (List uint8_t)).flatten.take (3 + 1) ∧
    uart_receive_task initial_state [[0x41, 10, 10, 10, 0x43, 0x44], [0x45]]
      = uart_receive_task initial_state [[0x41, 10, 10, 10, 0x42]] :=
  ⟨by decide, by decide, by decide,
   C17_bytes_after_match_ignored [[0x41, 10, 10, 10, 0x42]]
     [[0x41, 10, 10, 10, 0x43, 0x44], [0x45]] 3 (by decide) (by decide) (by decide)⟩

/-- C18: after `check_eot` has been called on the bytes `bs` one after the
other, starting with the zero-filled window, `eot_buffer` holds, in order, the
last three elements of `[0, 0, 0]` followed by `bs`. -/
theorem C18_window_last_three (s : State) (bs : List uint8_t)
    (hz : s.eot_buffer = ⟨0, 0, 0⟩) :
    (check_eot_calls s bs).2.eot_buffer.toList =
      (([0, 0, 0] : List uint8_t) ++ bs).drop ((([0, 0, 0] : List uint8_t) ++ bs).length - 3) := by
  rw [check_eot_calls_eot_buffer, window_after_toList, hz]
  have h : (([0, 0, 0] : List uint8_t) ++ bs).length - 3 = bs.length := by
    rw [List.length_append]
    simp
  rw [h]
  rfl

/-- C18 on the bytes `1, 2, 3, 4` (window `2, 3, 4`). -/
theorem C18_window_last_three_witness :
    initial_state.eot_buffer = ⟨0, 0, 0⟩ ∧
    (check_eot_calls initial_state [1, 2, 3, 4]).2.eot_buffer.toList =
      (([0, 0, 0] : List uint8_t) ++ [1, 2, 3, 4]).drop
        ((([0, 0, 0] : List uint8_t) ++ [1, 2, 3, 4]).length - 3) :=
  ⟨rfl, C18_window_last_three initial_state [1, 2, 3, 4] rfl⟩

/-- C19: for every input of fewer than `2 ^ 32` bytes received from the
initial state, if `check_eot` has returned true (the loop then sets
`end_of_transmission`), `total_bytes_received` is at least 3 and the unsigned
subtraction of the trim step does not wrap: `ram_storage_size` is exactly
`total_bytes_received - EOT_MARKER_LEN`. -/
theorem C19_trim_does_not_wrap (chunks : List (List uint8_t))
    (hlen : chunks.flatten.length < SIZE_MOD)
    (hmatch : (uart_receive_task initial_state chunks).end_of_transmission = true) :
    EOT_MARKER_LEN ≤ (uart_receive_task initial_state chunks).total_bytes_received ∧
    (uart_receive_task initial_state chunks).ram_storage_size + EOT_MARKER_LEN
      = (uart_receive_task initial_state chunks).total_bytes_received := by
  rw [uart_receive_task_join _ _ rfl rfl] at hmatch ⊢
  rcases process_chunk_cases initial_state chunks.flatten with
    ⟨_, he⟩ | ⟨pre, b, rest, hl, _, hm, he⟩
  · rw [he, feed_end_of_transmission] at hmatch
    exact Bool.noConfusion hmatch
  · have hlen2 : (pre ++ [b]).length < SIZE_MOD := by
      rw [hl] at hlen
      simp only [List.length_append, List.length_cons, List.length_nil] at hlen ⊢
      omega
    rw [window_after_concat] at hm
    have hm2 : is_marker (window_after ⟨0, 0, 0⟩ (pre ++ [b])) = true := hm
    rw [is_marker_window_after, decide_eq_true_iff] at hm2
    have h3 := trailing_lf_le_length (pre ++ [b])
    rw [he, feed_initial _ hlen2, on_eot_ram_storage_size, on_eot_total_bytes_received,
      received_total_bytes_received]
    unfold EOT_MARKER_LEN SIZE_MOD at *
    omega

/-- C19 on the stream `0x0A, 0x0A | 0x0A`. -/
theorem C19_trim_does_not_wrap_witness :
    ([[10, 10], [10]] : List (List uint8_t)).flatten.length < SIZE_MOD ∧
    (uart_receive_task initial_state [[10, 10], [10]]).end_of_transmission = true ∧
    (EOT_MARKER_LEN ≤ (uart_receive_task initial_state [[10, 10], [10]]).total_bytes_received ∧
     (uart_receive_task initial_state [[10, 10], [10]]).ram_storage_size + EOT_MARKER_LEN
       = (uart_receive_task initial_state [[10, 10], [10]]).total_bytes_received) :=
  ⟨by decide, by decide, C19_trim_does_not_wrap [[10, 10], [10]] (by decide) (by decide)⟩

theorem flatten_replicate_replicate (m n : Nat) (a : uint8_t) :
    (List.replicate m (List.replicate n a)).flatten = List.replicate (m * n) a := by
  induction m with
  | zero => simp
  | succ m ih =>
    rw [List.replicate_succ, List.flatten_cons, ih, Nat.succ_mul, Nat.add_comm (m * n) n,
      List.replicate_add]

theorem process_chunk_nil (s : State) : process_chunk s [] = s := rfl

theorem quiet_replicate (n : Nat) (a : uint8_t) (ha : a ≠ 10) :
    quiet initial_state.eot_buffer (List.replicate n a) := by
  have := quiet_of_trailing_lf [] (List.replicate n a) (by
    intro k _ _
    rw [List.nil_append, List.take_replicate,
      trailing_lf_eq_zero_of_not_mem _ (not_mem_replicate _ a ha)]
    omega)
  exact this

theorem feed_total_bytes_received_lt (s : State) (l : List uint8_t)
    (h : s.total_bytes_received < SIZE_MOD) :
    (feed s l).total_bytes_received < SIZE_MOD := by
  induction l generalizing s with
  | nil => exact h
  | cons b l ih =>
    rw [feed_cons]
    apply ih
    have h1 : (receive_byte s b).2.total_bytes_received =
        (s.total_bytes_received + 1) % SIZE_MOD := by
      unfold receive_byte store_byte
      split <;> rfl
    rw [h1]
    exact Nat.mod_lt _ (by unfold SIZE_MOD; omega)

/-- C20, as stated, fails for long streams: after `2 ^ 32` bytes `0x41`
(4194304 chunks of 1024 bytes, no terminator match) the 32-bit counter
`total_bytes_received` has wrapped to 0 and is not the number of bytes
processed. -/
theorem C20_counter_wrap_counterexample :
    (List.replicate 4194304 (List.replicate 1024 (0x41 : uint8_t))).flatten.length
      = 4294967296 ∧
    (∀ j : Nat, (check_eot_calls initial_state
      (List.replicate 4194304 (List.replicate 1024 (0x41 : uint8_t))).flatten).1[j]?
        ≠ some true) ∧
    (uart_receive_task initial_state
      (List.replicate 4194304 (List.replicate 1024 0x41))).current_state = STATE_RECEIVING ∧
    (uart_receive_task initial_state
      (List.replicate 4194304 (List.replicate 1024 0x41))).total_bytes_received = 0 := by
  have ha : (0x41 : uint8_t) ≠ 10 := by decide
  have hflat : (List.replicate 4194304 (List.replicate 1024 (0x41 : uint8_t))).flatten
      = List.replicate 4294967296 0x41 := by
    rw [flatten_replicate_replicate]
  have h0 : initial_state.total_bytes_received = 0 := rfl
  have hrun : uart_receive_task initial_state
      (List.replicate 4194304 (List.replicate 1024 0x41))
      = feed initial_state (List.replicate 4294967296 0x41) := by
    rw [uart_receive_task_join _ _ rfl rfl, hflat]
    have := process_chunk_quiet initial_state (List.replicate 4294967296 0x41) []
      (quiet_replicate _ _ ha)
    rw [List.append_nil, process_chunk_nil] at this
    exact this
  refine ⟨by rw [hflat, List.length_replicate], ?_, ?_, ?_⟩
  · intro j hj
    rw [hflat] at hj
    have hjl : j < (List.replicate 4294967296 (0x41 : uint8_t)).length := by
      by_contra hc
      rw [List.getElem?_eq_none (by rw [check_eot_calls_length]; omega)] at hj
      exact Option.noConfusion hj
    rw [check_eot_calls_result _ _ j hjl] at hj
    have hm : is_marker (window_after initial_state.eot_buffer
        ((List.replicate 4294967296 (0x41 : uint8_t)).take (j + 1))) = true :=
      Option.some.inj hj
    have he : initial_state.eot_buffer = ⟨0, 0, 0⟩ := rfl
    rw [he, is_marker_window_after, decide_eq_true_iff, List.take_replicate,
      trailing_lf_eq_zero_of_not_mem _ (not_mem_replicate _ _ ha)] at hm
    omega
  · rw [hrun, feed_current_state]
    rfl
  · have h1 := feed_total_bytes_received initial_state (List.replicate 4294967296 0x41)
    have h2 := feed_total_bytes_received_lt initial_state (List.replicate 4294967296 0x41)
      (by rw [h0]; unfold SIZE_MOD; omega)
    rw [List.length_replicate, Nat.mod_eq_of_lt h2, h0, Nat.zero_add] at h1
    rw [hrun, h1]
    unfold SIZE_MOD
    exact Nat.mod_self _

/-- C20 (amended): from the initial state, once `k < 2 ^ 32` bytes have been
processed by the receive loop without a terminator match (in any chunking),
`total_bytes_received = k`, `ram_storage_size = min k 2048`, `ram_storage[i]` is
the byte of index `i` of the input for every `i < min k 2048`, the other
`k - 2048` bytes have been dropped with one overflow signal each, and the state
is still `STATE_RECEIVING`. -/
theorem C20_receive_invariant (chunks : List (List uint8_t))
    (hlen : chunks.flatten.length < SIZE_MOD)
    (hquiet : ∀ j, j < chunks.flatten.length →
      (check_eot_calls initial_state chunks.flatten).1[j]? = some false) :
    (uart_receive_task initial_state chunks).total_bytes_received = chunks.flatten.length ∧
    (uart_receive_task initial_state chunks).ram_storage_size
      = min chunks.flatten.length MAX_TEXT_SIZE ∧
    (∀ i, i < min chunks.flatten.length MAX_TEXT_SIZE →
      ram_read (uart_receive_task initial_state chunks).ram_storage i = chunks.flatten[i]?) ∧
    overflow_count (uart_receive_task initial_state chunks).log
      = chunks.flatten.length - MAX_TEXT_SIZE ∧
    (uart_receive_task initial_state chunks).current_state = STATE_RECEIVING := by
  have hq : quiet initial_state.eot_buffer chunks.flatten := by
    apply quiet_of_forall
    intro j hj
    have := hquiet j hj
    rw [check_eot_calls_result _ _ j hj] at this
    simpa using this
  have hrun : uart_receive_task initial_state chunks = received chunks.flatten := by
    rw [uart_receive_task_join _ _ rfl rfl]
    have := process_chunk_quiet initial_state chunks.flatten [] hq
    rw [List.append_nil] at this
    rw [this, feed_initial _ hlen]
    rfl
  rw [hrun]
  refine ⟨rfl, rfl, ?_, ?_, rfl⟩
  · intro i hi
    have hi1 : i < chunks.flatten.length := by omega
    have hi2 : i < MAX_TEXT_SIZE := by omega
    unfold ram_read
    rw [dif_pos hi2, received_ram_storage, List.getD_eq_getElem?_getD,
      List.getElem?_eq_getElem hi1]
    rfl
  · rw [received_log, overflow_count_overflow_log]

/-- C20 (amended) after the four bytes `0x41, 0x0A | 0x0A, 0x42`. -/
theorem C20_receive_invariant_witness :
    ([[0x41, 10], [10, 0x42]] : List (List uint8_t)).flatten.length < SIZE_MOD ∧
    (∀ j, j < ([[0x41, 10], [10, 0x42]] : List (List uint8_t)).flatten.length →
      (check_eot_calls initial_state
        ([[0x41, 10], [10, 0x42]] : List (List uint8_t)).flatten).1[j]? = some false) ∧
    ((uart_receive_task initial_state [[0x41, 10], [10, 0x42]]).total_bytes_received
       = ([[0x41, 10], [10, 0x42]] : List (List uint8_t)).flatten.length ∧
     (uart_receive_task initial_state [[0x41, 10], [10, 0x42]]).ram_storage_size
       = min ([[0x41, 10], [10, 0x42]] : List (List uint8_t)).flatten.length MAX_TEXT_SIZE ∧
     (∀ i, i < min ([[0x41, 10], [10, 0x42]] : List (List uint8_t)).flatten.length
          MAX_TEXT_SIZE →
       ram_read (uart_receive_task initial_state [[0x41, 10], [10, 0x42]]).ram_storage i
         = ([[0x41, 10], [10, 0x42]] : List (List uint8_t)).flatten[i]?) ∧
     overflow_count (uart_receive_task initial_state [[0x41, 10], [10, 0x42]]).log
       = ([[0x41, 10], [10, 0x42]] : List (List uint8_t)).flatten.length - MAX_TEXT_SIZE ∧
     (uart_receive_task initial_state [[0x41, 10], [10, 0x42]]).current_state
       = STATE_RECEIVING) :=
  ⟨by decide, by decide,
   C20_receive_invariant [[0x41, 10], [10, 0x42]] (by decide) (by decide)⟩

/-! ### The send loop -/

theorem fill_data_succ (s : State) (c : Nat) :
    fill_data s (c + 1) =
      ((fill_data s c).1 ++
        [(retrieve_byte (fill_data s c).2
          (((fill_data s c).2.total_bytes_sent + c) % SIZE_MOD)).1],
       (retrieve_byte (fill_data s c).2
          (((fill_data s c).2.total_bytes_sent + c) % SIZE_MOD)).2) := by
  unfold fill_data
  rw [List.range_succ, List.foldl_append]
  rfl

theorem ram_slice_succ (ram : Fin MAX_TEXT_SIZE → uint8_t) (start len : Nat) :
    ram_slice ram start (len + 1) = ram_slice ram start len ++ [ram_read ram (start + len)] := by
  unfold ram_slice
  rw [List.range_succ, List.map_append]
  rfl

theorem ram_slice_length (ram : Fin MAX_TEXT_SIZE → uint8_t) (start len : Nat) :
    (ram_slice ram start len).length = len := by
  unfold ram_slice
  rw [List.length_map, List.length_range]

/-- While every position read is below `ram_storage_size` and does not wrap,
filling `data` reads the store and changes nothing. -/
theorem fill_data_in_range (s : State) (c : Nat)
    (h1 : s.total_bytes_sent + c ≤ s.ram_storage_size)
    (h2 : s.ram_storage_size < SIZE_MOD) :
    fill_data s c = (ram_slice s.ram_storage s.total_bytes_sent c, s) := by
  induction c with
  | zero => rfl
  | succ c ih =>
    rw [fill_data_succ, ih (by omega), ram_slice_succ]
    have hm : (s.total_bytes_sent + c) % SIZE_MOD = s.total_bytes_sent + c :=
      Nat.mod_eq_of_lt (by omega)
    simp only [hm]
    unfold retrieve_byte
    rw [if_pos (by omega)]

theorem chunk_at_le (s : State) (a : Nat) : chunk_at s a ≤ a - s.total_bytes_sent := by
  unfold chunk_at
  split <;> omega

theorem chunk_at_pos (s : State) (a : Nat) (h : s.total_bytes_sent < a) : 0 < chunk_at s a := by
  unfold chunk_at BUF_SIZE
  split <;> omega

/-- One iteration on a store whose size is the `actual_size` of the loop. -/
theorem send_iteration_eq (f : List (Option uint8_t) → Int) (s : State)
    (ht : s.total_bytes_sent < s.ram_storage_size) (hn : s.ram_storage_size < SIZE_MOD) :
    send_iteration f s.ram_storage_size s =
      if 0 < f (ram_slice s.ram_storage s.total_bytes_sent (chunk_at s s.ram_storage_size)) then
        ({ s with total_bytes_sent :=
             (s.total_bytes_sent +
               (f (ram_slice s.ram_storage s.total_bytes_sent
                 (chunk_at s s.ram_storage_size))).toNat) % SIZE_MOD },
         (ram_slice s.ram_storage s.total_bytes_sent (chunk_at s s.ram_storage_size),
          f (ram_slice s.ram_storage s.total_bytes_sent (chunk_at s s.ram_storage_size))))
      else
        ({ s with log := s.log ++
             [log_error.send_error
               (f (ram_slice s.ram_storage s.total_bytes_sent
                 (chunk_at s s.ram_storage_size)))] },
         (ram_slice s.ram_storage s.total_bytes_sent (chunk_at s s.ram_storage_size),
          f (ram_slice s.ram_storage s.total_bytes_sent (chunk_at s s.ram_storage_size)))) := by
  have hc := chunk_at_le s s.ram_storage_size
  have hfill := fill_data_in_range s (chunk_at s s.ram_storage_size) (by omega) hn
  unfold send_iteration
  unfold chunk_at at hfill ⊢
  simp only [hfill]

theorem ram_slice_take (ram : Fin MAX_TEXT_SIZE → uint8_t) (start len k : Nat) (hk : k ≤ len) :
    (ram_slice ram start len).take k = ram_slice ram start k := by
  unfold ram_slice
  rw [← List.map_take, List.take_range, Nat.min_eq_left hk]

theorem ram_slice_append (ram : Fin MAX_TEXT_SIZE → uint8_t) (t0 a b : Nat) :
    ram_slice ram t0 a ++ ram_slice ram (t0 + a) b = ram_slice ram t0 (a + b) := by
  induction b with
  | zero => simp [ram_slice]
  | succ b ih =>
    rw [ram_slice_succ, ← List.append_assoc, ih, ← Nat.add_assoc, ram_slice_succ,
      Nat.add_assoc t0 a b]

theorem transmitted_concat (tr : List (List (Option uint8_t) × Int))
    (w : List (Option uint8_t) × Int) :
    transmitted (tr ++ [w]) = transmitted tr ++ w.1.take w.2.toNat := by
  simp [transmitted]

/-- The send loop on a store of size `n`, with a driver that never returns more
than the length passed, entered with the bytes `ram_storage[t0..total_bytes_sent)`
transmitted: the counter stays within `n`, the store is not changed, the bytes
transmitted so far are `ram_storage[t0..total_bytes_sent)`, and the loop ends
only with `total_bytes_sent = n`. -/
theorem send_loop_short_writes (chan : Nat → List (Option uint8_t) → Int)
    (hchan : ∀ k data, chan k data ≤ (data.length : Int)) (n fuel t0 : Nat) (s : State)
    (tr : List (List (Option uint8_t) × Int))
    (hs : s.ram_storage_size = n) (hn : n < SIZE_MOD) (ht : s.total_bytes_sent ≤ n)
    (h0 : t0 ≤ s.total_bytes_sent)
    (hst : s.current_state = STATE_SENDING)
    (htr : transmitted tr = ram_slice s.ram_storage t0 (s.total_bytes_sent - t0)) :
    (send_loop chan n fuel s tr).globals.total_bytes_sent ≤ n ∧
    ((send_loop chan n fuel s tr).finished = true →
      (send_loop chan n fuel s tr).globals.total_bytes_sent = n ∧
      (send_loop chan n fuel s tr).globals.current_state = STATE_IDLE) ∧
    ((send_loop chan n fuel s tr).finished = false →
      (send_loop chan n fuel s tr).globals.current_state = STATE_SENDING) ∧
    (send_loop chan n fuel s tr).globals.ram_storage = s.ram_storage ∧
    (send_loop chan n fuel s tr).globals.ram_storage_size = n ∧
    transmitted (send_loop chan n fuel s tr).writes =
      ram_slice s.ram_storage t0
        ((send_loop chan n fuel s tr).globals.total_bytes_sent - t0) := by
  induction fuel generalizing s tr with
  | zero =>
    unfold send_loop
    by_cases hlt : s.total_bytes_sent < n
    · rw [if_pos hlt]
      exact ⟨ht, fun h => Bool.noConfusion h, fun _ => hst, rfl, hs, htr⟩
    · rw [if_neg hlt]
      have : s.total_bytes_sent = n := by omega
      exact ⟨ht, fun _ => ⟨this, rfl⟩, fun h => Bool.noConfusion h, rfl, hs, htr⟩
  | succ fuel ih =>
    unfold send_loop
    by_cases hlt : s.total_bytes_sent < n
    · rw [if_pos hlt]
      subst hs
      have hc := chunk_at_le s s.ram_storage_size
      have hr := hchan tr.length
        (ram_slice s.ram_storage s.total_bytes_sent (chunk_at s s.ram_storage_size))
      rw [ram_slice_length] at hr
      simp only []
      rw [send_iteration_eq _ s hlt hn]
      generalize chan tr.length
        (ram_slice s.ram_storage s.total_bytes_sent (chunk_at s s.ram_storage_size)) = r at hr ⊢
      by_cases hpos : 0 < r
      · rw [if_pos hpos]
        have hle : r.toNat ≤ chunk_at s s.ram_storage_size := by omega
        have hm : (s.total_bytes_sent + r.toNat) % SIZE_MOD = s.total_bytes_sent + r.toNat :=
          Nat.mod_eq_of_lt (by omega)
        simp only [hm]
        have hle2 : s.total_bytes_sent + r.toNat ≤ s.ram_storage_size := by omega
        have hge : t0 ≤ s.total_bytes_sent + r.toNat := by omega
        exact ih _ _ rfl hle2 hge hst
          (by
            rw [transmitted_concat, htr]
            show _ ++ (ram_slice s.ram_storage s.total_bytes_sent _).take _
              = ram_slice s.ram_storage t0 (s.total_bytes_sent + r.toNat - t0)
            have e1 : s.total_bytes_sent = t0 + (s.total_bytes_sent - t0) := by omega
            have e2 : s.total_bytes_sent + r.toNat - t0
                = (s.total_bytes_sent - t0) + r.toNat := by omega
            rw [ram_slice_take _ _ _ _ hle, e2, ← ram_slice_append, ← e1])
      · rw [if_neg hpos]
        have hz : r.toNat = 0 := by omega
        exact ih _ _ rfl ht h0 hst
          (by
            rw [transmitted_concat, htr]
            show _ ++ (ram_slice s.ram_storage s.total_bytes_sent _).take _ = _
            rw [hz, List.take_zero, List.append_nil])
    · rw [if_neg hlt]
      have : s.total_bytes_sent = n := by omega
      exact ⟨ht, fun _ => ⟨this, rfl⟩, fun h => Bool.noConfusion h, rfl, hs, htr⟩

theorem full_chunks_zero : full_chunks 0 = [] := by
  unfold full_chunks BUF_SIZE
  rw [Nat.zero_div, Nat.zero_mod, if_pos rfl]
  rfl

theorem full_chunks_step (m : Nat) (hm : 0 < m) :
    full_chunks m =
      (if BUF_SIZE < m then BUF_SIZE else m) ::
        full_chunks (m - (if BUF_SIZE < m then BUF_SIZE else m)) := by
  unfold full_chunks BUF_SIZE
  by_cases h : 1024 < m
  · rw [if_pos h]
    have h1 : m / 1024 = (m - 1024) / 1024 + 1 := by omega
    have h2 : (m - 1024) % 1024 = m % 1024 := by omega
    rw [h1, h2, List.replicate_succ, List.cons_append]
  · rw [if_neg h, Nat.sub_self, Nat.zero_div, Nat.zero_mod, if_pos rfl]
    by_cases h3 : m = 1024
    · subst h3
      rfl
    · have h1 : m / 1024 = 0 := by omega
      have h2 : m % 1024 = m := by omega
      rw [h1, h2, if_neg (by omega)]
      rfl

/-- The send loop with a driver that accepts every write in full: with enough
iterations allowed it ends, and the sizes requested are `full_chunks`. -/
theorem send_loop_full (n fuel : Nat) (s : State)
    (tr : List (List (Option uint8_t) × Int))
    (hs : s.ram_storage_size = n) (hn : n < SIZE_MOD) (ht : s.total_bytes_sent ≤ n)
    (hfuel : n - s.total_bytes_sent ≤ fuel * BUF_SIZE) :
    (send_loop (fun _ data => (data.length : Int)) n fuel s tr).finished = true ∧
    (send_loop (fun _ data => (data.length : Int)) n fuel s tr).writes.map
        (fun w => w.1.length)
      = tr.map (fun w => w.1.length) ++ full_chunks (n - s.total_bytes_sent) ∧
    (∀ w, w ∈ (send_loop (fun _ data => (data.length : Int)) n fuel s tr).writes →
      w ∈ tr ∨ w.2 = (w.1.length : Int)) := by
  induction fuel generalizing s tr with
  | zero =>
    have hz : n - s.total_bytes_sent = 0 := by omega
    unfold send_loop
    rw [if_neg (by omega), hz, full_chunks_zero, List.append_nil]
    exact ⟨rfl, rfl, fun w hw => Or.inl hw⟩
  | succ fuel ih =>
    unfold send_loop
    by_cases hlt : s.total_bytes_sent < n
    · rw [if_pos hlt]
      subst hs
      have hc := chunk_at_le s s.ram_storage_size
      have hc0 := chunk_at_pos s s.ram_storage_size hlt
      simp only []
      rw [send_iteration_eq _ s hlt hn]
      simp only [ram_slice_length]
      rw [if_pos (by omega)]
      have hm : (s.total_bytes_sent + ((chunk_at s s.ram_storage_size : Nat) : Int).toNat)
          % SIZE_MOD = s.total_bytes_sent + chunk_at s s.ram_storage_size := by
        rw [Int.toNat_ofNat]
        exact Nat.mod_eq_of_lt (by omega)
      simp only [hm]
      have hstep := full_chunks_step (s.ram_storage_size - s.total_bytes_sent) (by omega)
      have hfuel2 : s.ram_storage_size - (s.total_bytes_sent + chunk_at s s.ram_storage_size)
          ≤ fuel * BUF_SIZE := by
        unfold chunk_at BUF_SIZE at *
        split <;> omega
      have hle2 : s.total_bytes_sent + chunk_at s s.ram_storage_size ≤ s.ram_storage_size := by
        omega
      obtain ⟨h1, h2, h3⟩ := ih
        { s with total_bytes_sent := s.total_bytes_sent + chunk_at s s.ram_storage_size }
        (tr ++ [(ram_slice s.ram_storage s.total_bytes_sent (chunk_at s s.ram_storage_size),
          ((chunk_at s s.ram_storage_size : Nat) : Int))]) rfl hle2 hfuel2
      refine ⟨h1, ?_, ?_⟩
      · rw [h2, hstep, List.map_append, List.append_assoc]
        congr 1
        show [(ram_slice s.ram_storage s.total_bytes_sent (chunk_at s s.ram_storage_size)).length]
          ++ full_chunks (s.ram_storage_size -
              (s.total_bytes_sent + chunk_at s s.ram_storage_size)) = _
        rw [ram_slice_length, Nat.sub_add_eq]
        rfl
      · intro w hw
        rcases h3 w hw with h | h
        · rcases List.mem_append.1 h with h | h
          · exact Or.inl h
          · rw [List.mem_singleton] at h
            subst h
            exact Or.inr (by show _ = ((ram_slice _ _ _).length : Int); rw [ram_slice_length])
        · exact Or.inr h
    · rw [if_neg hlt]
      have hz : n - s.total_bytes_sent = 0 := by omega
      rw [hz, full_chunks_zero, List.append_nil]
      exact ⟨rfl, rfl, fun w hw => Or.inl hw⟩

/-- C12: when the driver accepts every write in full, the send task started
in `STATE_SENDING` with `total_bytes_sent = 0` on a store of size `n` (a
`size_t` value) ends, given enough iterations; the chunk sizes it requests are,
in order, `n / 1024` times 1024 and then `n % 1024` if that is not zero; every
write is accepted in full; and it ends with `total_bytes_sent = n` and
`current_state = STATE_IDLE`. -/
theorem C12_send_chunks (s : State) (fuel : Nat)
    (hstate : s.current_state = STATE_SENDING) (hsent : s.total_bytes_sent = 0)
    (hsize : s.ram_storage_size < SIZE_MOD) (hfuel : s.ram_storage_size ≤ fuel * BUF_SIZE) :
    (uart_send_task (fun _ data => (data.length : Int)) fuel s).finished = true ∧
    (uart_send_task (fun _ data => (data.length : Int)) fuel s).writes.map
        (fun w => w.1.length)
      = List.replicate (s.ram_storage_size / 1024) 1024 ++
          (if s.ram_storage_size % 1024 = 0 then [] else [s.ram_storage_size % 1024]) ∧
    (∀ w, w ∈ (uart_send_task (fun _ data => (data.length : Int)) fuel s).writes →
      w.2 = (w.1.length : Int)) ∧
    (uart_send_task (fun _ data => (data.length : Int)) fuel s).globals.total_bytes_sent
      = s.ram_storage_size ∧
    (uart_send_task (fun _ data => (data.length : Int)) fuel s).globals.current_state
      = STATE_IDLE := by
  unfold uart_send_task
  rw [if_pos hstate]
  obtain ⟨h1, h2, h3⟩ := send_loop_full s.ram_storage_size fuel s [] rfl hsize
    (by omega) (by omega)
  obtain ⟨_, h5, _⟩ := send_loop_short_writes (fun _ data => (data.length : Int))
    (fun _ _ => Int.le_refl _) s.ram_storage_size fuel 0 s [] rfl hsize (by omega)
    (Nat.zero_le _) hstate (by rw [hsent]; rfl)
  rw [hsent, Nat.sub_zero] at h2
  refine ⟨h1, ?_, ?_, (h5 h1).1, (h5 h1).2⟩
  · rw [h2]
    rfl
  · intro w hw
    rcases h3 w hw with h | h
    · exact absurd h (List.not_mem_nil w)
    · exact h

/-- C12 for `actual_size = 2500` (scenario 4): the chunks are 1024, 1024,
452. -/
theorem C12_send_chunks_witness :
    ({ initial_state with ram_storage_size := 2500, current_state := STATE_SENDING } :
      State).current_state = STATE_SENDING ∧
    ({ initial_state with ram_storage_size := 2500, current_state := STATE_SENDING } :
      State).total_bytes_sent = 0 ∧
    ({ initial_state with ram_storage_size := 2500, current_state := STATE_SENDING } :
      State).ram_storage_size < SIZE_MOD ∧
    ({ initial_state with ram_storage_size := 2500, current_state := STATE_SENDING } :
      State).ram_storage_size ≤ 3 * BUF_SIZE ∧
    (uart_send_task (fun _ data => (data.length : Int)) 3
      { initial_state with ram_storage_size := 2500, current_state := STATE_SENDING }).finished
      = true ∧
    (uart_send_task (fun _ data => (data.length : Int)) 3
      { initial_state with ram_storage_size := 2500, current_state := STATE_SENDING }).writes.map
        (fun w => w.1.length) = [1024, 1024, 452] ∧
    (uart_send_task (fun _ data => (data.length : Int)) 3
      { initial_state with ram_storage_size := 2500,
                           current_state := STATE_SENDING }).globals.total_bytes_sent = 2500 ∧
    (uart_send_task (fun _ data => (data.length : Int)) 3
      { initial_state with ram_storage_size := 2500,
                           current_state := STATE_SENDING }).globals.current_state
      = STATE_IDLE :=
  have h := C12_send_chunks
    { initial_state with ram_storage_size := 2500, current_state := STATE_SENDING } 3
    rfl rfl (by decide) (by decide)
  ⟨rfl, rfl, by decide, by decide, h.1, h.2.1, h.2.2.2.1, h.2.2.2.2⟩

/-! ### The send loop, one iteration after the other -/

theorem send_loop_zero (chan : Nat → List (Option uint8_t) → Int) (n : Nat) (s : State)
    (tr : List (List (Option uint8_t) × Int)) :
    send_loop chan n 0 s tr =
      if s.total_bytes_sent < n then ⟨s, tr, false⟩
      else ⟨{ s with current_state := STATE_IDLE }, tr, true⟩ := rfl

theorem send_loop_succ (chan : Nat → List (Option uint8_t) → Int) (n fuel : Nat) (s : State)
    (tr : List (List (Option uint8_t) × Int)) :
    send_loop chan n (fuel + 1) s tr =
      if s.total_bytes_sent < n then
        send_loop chan n fuel (send_iteration (chan tr.length) n s).1
          (tr ++ [(send_iteration (chan tr.length) n s).2])
      else ⟨{ s with current_state := STATE_IDLE }, tr, true⟩ := rfl

/-- Allowing one more iteration continues the run by one iteration. -/
theorem send_loop_succ_more (chan : Nat → List (Option uint8_t) → Int) (n fuel : Nat)
    (s : State) (tr : List (List (Option uint8_t) × Int)) :
    send_loop chan n (fuel + 1) s tr = send_more chan n (send_loop chan n fuel s tr) := by
  induction fuel generalizing s tr with
  | zero =>
    by_cases h : s.total_bytes_sent < n
    · have h0 : send_loop chan n 0 s tr = ⟨s, tr, false⟩ := by
        rw [send_loop_zero, if_pos h]
      rw [send_loop_succ, if_pos h, h0]
      rfl
    · have h0 : send_loop chan n 0 s tr = ⟨{ s with current_state := STATE_IDLE }, tr, true⟩ := by
        rw [send_loop_zero, if_neg h]
      rw [send_loop_succ, if_neg h, h0]
      rfl
  | succ fuel ih =>
    by_cases h : s.total_bytes_sent < n
    · have h1 : send_loop chan n (fuel + 1) s tr =
          send_loop chan n fuel (send_iteration (chan tr.length) n s).1
            (tr ++ [(send_iteration (chan tr.length) n s).2]) := by
        rw [send_loop_succ, if_pos h]
      rw [send_loop_succ chan n (fuel + 1), if_pos h, h1]
      exact ih _ _
    · have h1 : send_loop chan n (fuel + 1) s tr =
          ⟨{ s with current_state := STATE_IDLE }, tr, true⟩ := by
        rw [send_loop_succ, if_neg h]
      rw [send_loop_succ chan n (fuel + 1), if_neg h, h1]
      rfl

theorem accepted_concat (tr : List (List (Option uint8_t) × Int))
    (w : List (Option uint8_t) × Int) :
    accepted (tr ++ [w]) = accepted tr + w.2.toNat := by
  simp [accepted]

theorem send_errors_concat (tr : List (List (Option uint8_t) × Int))
    (w : List (Option uint8_t) × Int) :
    send_errors (tr ++ [w]) =
      send_errors tr ++ (if w.2 ≤ 0 then [log_error.send_error w.2] else []) := by
  unfold send_errors
  rw [List.filter_append, List.map_append]
  by_cases h : w.2 ≤ 0 <;> simp [h]

theorem chunk_at_eq_min (s : State) (a : Nat) :
    chunk_at s a = min (a - s.total_bytes_sent) BUF_SIZE := by
  unfold chunk_at
  split <;> omega

/-- One iteration of the send loop on a store whose size is the `actual_size`
of the loop, with a driver that never returns more than the length passed. -/
theorem send_iteration_facts (f : List (Option uint8_t) → Int) (G : State)
    (hf : ∀ data, f data ≤ (data.length : Int))
    (hlt : G.total_bytes_sent < G.ram_storage_size) (hn : G.ram_storage_size < SIZE_MOD) :
    (send_iteration f G.ram_storage_size G).2 =
      (ram_slice G.ram_storage G.total_bytes_sent
          (min (G.ram_storage_size - G.total_bytes_sent) BUF_SIZE),
       f (ram_slice G.ram_storage G.total_bytes_sent
          (min (G.ram_storage_size - G.total_bytes_sent) BUF_SIZE))) ∧
    (send_iteration f G.ram_storage_size G).1.ram_storage = G.ram_storage ∧
    (send_iteration f G.ram_storage_size G).1.ram_storage_size = G.ram_storage_size ∧
    (send_iteration f G.ram_storage_size G).1.current_state = G.current_state ∧
    (send_iteration f G.ram_storage_size G).1.total_bytes_sent
      = G.total_bytes_sent + (send_iteration f G.ram_storage_size G).2.2.toNat ∧
    (send_iteration f G.ram_storage_size G).1.total_bytes_sent ≤ G.ram_storage_size ∧
    (send_iteration f G.ram_storage_size G).1.log
      = G.log ++ (if (send_iteration f G.ram_storage_size G).2.2 ≤ 0
          then [log_error.send_error (send_iteration f G.ram_storage_size G).2.2] else []) := by
  have hc := chunk_at_le G G.ram_storage_size
  have hr := hf (ram_slice G.ram_storage G.total_bytes_sent (chunk_at G G.ram_storage_size))
  rw [ram_slice_length] at hr
  rw [send_iteration_eq f G hlt hn, chunk_at_eq_min]
  rw [chunk_at_eq_min] at hr hc
  generalize f (ram_slice G.ram_storage G.total_bytes_sent
    (min (G.ram_storage_size - G.total_bytes_sent) BUF_SIZE)) = r at hr ⊢
  by_cases hpos : 0 < r
  · rw [if_pos hpos]
    have hm : (G.total_bytes_sent + r.toNat) % SIZE_MOD = G.total_bytes_sent + r.toNat :=
      Nat.mod_eq_of_lt (by omega)
    have hle : G.total_bytes_sent + r.toNat ≤ G.ram_storage_size := by omega
    have hnot : ¬ r ≤ 0 := by omega
    refine ⟨rfl, rfl, rfl, rfl, hm, ?_, ?_⟩
    · show (G.total_bytes_sent + r.toNat) % SIZE_MOD ≤ G.ram_storage_size
      rw [hm]
      exact hle
    · show G.log = G.log ++ (if r ≤ 0 then [log_error.send_error r] else [])
      rw [if_neg hnot, List.append_nil]
  · rw [if_neg hpos]
    have hz : r.toNat = 0 := by omega
    have hle0 : r ≤ 0 := by omega
    refine ⟨rfl, rfl, rfl, rfl, ?_, ?_, ?_⟩
    · show G.total_bytes_sent = G.total_bytes_sent + r.toNat
      rw [hz, Nat.add_zero]
    · show G.total_bytes_sent ≤ G.ram_storage_size
      omega
    · show G.log ++ [log_error.send_error r]
        = G.log ++ (if r ≤ 0 then [log_error.send_error r] else [])
      rw [if_pos hle0]

theorem send_inv_zero (chan : Nat → List (Option uint8_t) → Int) (s : State)
    (ht : s.total_bytes_sent ≤ s.ram_storage_size) (hst : s.current_state = STATE_SENDING) :
    send_inv chan s 0 (send_loop chan s.ram_storage_size 0 s []) := by
  have ha : accepted ([] : List (List (Option uint8_t) × Int)) = 0 := rfl
  have he : send_errors ([] : List (List (Option uint8_t) × Int)) = [] := rfl
  rw [send_loop_zero]
  by_cases h : s.total_bytes_sent < s.ram_storage_size
  · rw [if_pos h]
    refine ⟨rfl, rfl, ?_, ht, ?_, fun _ => ⟨rfl, h, hst⟩, fun hf => Bool.noConfusion hf, ?_⟩
    · show s.total_bytes_sent = s.total_bytes_sent + accepted []
      rw [ha, Nat.add_zero]
    · show s.log = s.log ++ send_errors []
      rw [he, List.append_nil]
    · intro j hj
      exact absurd hj (Nat.not_lt_zero j)
  · rw [if_neg h]
    refine ⟨rfl, rfl, ?_, ht, ?_, fun hf => Bool.noConfusion hf,
      fun _ => ⟨by show s.total_bytes_sent = s.ram_storage_size; omega, rfl, Nat.le_refl _⟩, ?_⟩
    · show s.total_bytes_sent = s.total_bytes_sent + accepted []
      rw [ha, Nat.add_zero]
    · show s.log = s.log ++ send_errors []
      rw [he, List.append_nil]
    · intro j hj
      exact absurd hj (Nat.not_lt_zero j)

theorem send_inv_more (chan : Nat → List (Option uint8_t) → Int) (s : State) (fuel : Nat)
    (R : send_run) (hchan : ∀ k data, chan k data ≤ (data.length : Int))
    (hn : s.ram_storage_size < SIZE_MOD) (h : send_inv chan s fuel R) :
    send_inv chan s (fuel + 1) (send_more chan s.ram_storage_size R) := by
  obtain ⟨G, W, fin⟩ := R
  obtain ⟨h1, h2, h3, h4, h5, h6, h7, h8⟩ := h
  simp only at h1 h2 h3 h4 h5 h6 h7 h8
  cases fin with
  | true =>
    obtain ⟨e1, e2, e3⟩ := h7 rfl
    have hm : send_more chan s.ram_storage_size ⟨G, W, true⟩ = ⟨G, W, true⟩ := rfl
    rw [hm]
    exact ⟨h1, h2, h3, h4, h5, fun hf => Bool.noConfusion hf,
      fun _ => ⟨e1, e2, Nat.le_succ_of_le e3⟩, h8⟩
  | false =>
    obtain ⟨e1, e2, e3⟩ := h6 rfl
    have hm : send_more chan s.ram_storage_size ⟨G, W, false⟩ =
        send_loop chan s.ram_storage_size 0
          (send_iteration (chan W.length) G.ram_storage_size G).1
          (W ++ [(send_iteration (chan W.length) G.ram_storage_size G).2]) := by
      rw [h2]
      rfl
    obtain ⟨f1, f2, f3, f4, f5, f6, f7⟩ :=
      send_iteration_facts (chan W.length) G (hchan W.length) (by omega) (by omega)
    rw [hm]
    generalize send_iteration (chan W.length) G.ram_storage_size G = it at f1 f2 f3 f4 f5 f6 f7 ⊢
    obtain ⟨G2, w⟩ := it
    simp only at f1 f2 f3 f4 f5 f6 f7 ⊢
    have hacc : G2.total_bytes_sent = s.total_bytes_sent + accepted (W ++ [w]) := by
      rw [accepted_concat, f5, h3, Nat.add_assoc]
    have hlog : G2.log = s.log ++ send_errors (W ++ [w]) := by
      rw [send_errors_concat, f7, h5, List.append_assoc]
    have htr : ∀ j, j < (W ++ [w]).length →
        s.total_bytes_sent + accepted ((W ++ [w]).take j) < s.ram_storage_size ∧
        (W ++ [w])[j]? = some (write_at chan s
          (s.total_bytes_sent + accepted ((W ++ [w]).take j)) j) := by
      intro j hj
      rw [List.length_append, List.length_singleton] at hj
      by_cases hjl : j < W.length
      · rw [List.take_append_of_le_length (by omega), List.getElem?_append_left hjl]
        exact h8 j hjl
      · have hje : j = W.length := by omega
        subst hje
        rw [List.take_left, List.getElem?_concat_length, ← h3]
        refine ⟨e2, ?_⟩
        rw [f1]
        unfold write_at
        rw [h1, h2]
    have hle2 : G2.total_bytes_sent ≤ s.ram_storage_size := by omega
    rw [send_loop_zero]
    by_cases hlt : G2.total_bytes_sent < s.ram_storage_size
    · rw [if_pos hlt]
      refine ⟨f2.trans h1, f3.trans h2, hacc, hle2, hlog,
        fun _ => ⟨?_, hlt, f4.trans e3⟩, fun hf => Bool.noConfusion hf, htr⟩
      show (W ++ [w]).length = fuel + 1
      rw [List.length_append, List.length_singleton, e1]
    · rw [if_neg hlt]
      have heq : G2.total_bytes_sent = s.ram_storage_size := by omega
      refine ⟨f2.trans h1, f3.trans h2, hacc, hle2, hlog,
        fun hf => Bool.noConfusion hf, fun _ => ⟨heq, rfl, ?_⟩, htr⟩
      show (W ++ [w]).length ≤ fuel + 1
      rw [List.length_append, List.length_singleton, e1]

/-- The run of the send loop from `s`, whatever the number of iterations
allowed, satisfies `send_inv`. -/
theorem send_loop_inv (chan : Nat → List (Option uint8_t) → Int) (s : State) (fuel : Nat)
    (hchan : ∀ k data, chan k data ≤ (data.length : Int))
    (hn : s.ram_storage_size < SIZE_MOD) (ht : s.total_bytes_sent ≤ s.ram_storage_size)
    (hst : s.current_state = STATE_SENDING) :
    send_inv chan s fuel (send_loop chan s.ram_storage_size fuel s []) := by
  induction fuel with
  | zero => exact send_inv_zero chan s ht hst
  | succ fuel ih =>
    rw [send_loop_succ_more]
    exact send_inv_more chan s fuel _ hchan hn ih

/-- C13: in the send task on a store of size `n` (the `actual_size` read on
line 165), with a driver whose result never exceeds the length passed.  One
iteration entered with `total_bytes_sent < n` requests `min (n -
total_bytes_sent) 1024` bytes and, for the result `r`: if `r > 0`,
`total_bytes_sent` grows by exactly `r`; if `r <= 0`, `total_bytes_sent` is
unchanged, the error is logged and the next iteration requests the same data
again.  After any number of iterations `total_bytes_sent <= n`, and
`current_state` is `STATE_IDLE` only with `total_bytes_sent = n`.

The same for the loop itself, run with at most `fuel` iterations allowed.
While it has not ended it has made exactly `fuel` calls, `total_bytes_sent <
n`, the state is still `STATE_SENDING`, and allowing one iteration more adds
exactly one call, the iteration above on the globals reached.  It ends only
with `total_bytes_sent = n`.  At every point `total_bytes_sent` is its initial
value plus the positive results so far, one error is logged for each result
that is not positive, the call number `j` passes the bytes of the store from
the position reached through the calls before it, and the call that follows a
result `r <= 0` passes the same data again. -/
theorem C13_send_accounting (chan : Nat → List (Option uint8_t) → Int) (s : State)
    (k fuel : Nat)
    (hstate : s.current_state = STATE_SENDING) (hsize : s.ram_storage_size < SIZE_MOD)
    (hsent : s.total_bytes_sent ≤ s.ram_storage_size)
    (hchan : ∀ j data, chan j data ≤ (data.length : Int)) :
    (s.total_bytes_sent < s.ram_storage_size →
      (send_iteration (chan k) s.ram_storage_size s).2.1.length
        = min (s.ram_storage_size - s.total_bytes_sent) BUF_SIZE ∧
      (send_iteration (chan k) s.ram_storage_size s).2.2
        = chan k (send_iteration (chan k) s.ram_storage_size s).2.1 ∧
      (0 < (send_iteration (chan k) s.ram_storage_size s).2.2 →
        ((send_iteration (chan k) s.ram_storage_size s).1.total_bytes_sent : Int)
          = (s.total_bytes_sent : Int) + (send_iteration (chan k) s.ram_storage_size s).2.2) ∧
      ((send_iteration (chan k) s.ram_storage_size s).2.2 ≤ 0 →
        (send_iteration (chan k) s.ram_storage_size s).1.total_bytes_sent
          = s.total_bytes_sent ∧
        (send_iteration (chan k) s.ram_storage_size s).1.log
          = s.log ++ [log_error.send_error
              (send_iteration (chan k) s.ram_storage_size s).2.2] ∧
        (send_iteration (chan (k + 1)) s.ram_storage_size
            (send_iteration (chan k) s.ram_storage_size s).1).2.1
          = (send_iteration (chan k) s.ram_storage_size s).2.1)) ∧
    (uart_send_task chan fuel s).globals.total_bytes_sent ≤ s.ram_storage_size ∧
    ((uart_send_task chan fuel s).globals.current_state = STATE_IDLE →
      (uart_send_task chan fuel s).globals.total_bytes_sent = s.ram_storage_size) ∧
    ((uart_send_task chan fuel s).finished = false →
      (uart_send_task chan fuel s).writes.length = fuel ∧
      (uart_send_task chan fuel s).globals.total_bytes_sent < s.ram_storage_size ∧
      (uart_send_task chan fuel s).globals.current_state = STATE_SENDING ∧
      (uart_send_task chan (fuel + 1) s).writes =
        (uart_send_task chan fuel s).writes ++
          [(send_iteration (chan fuel) s.ram_storage_size
            (uart_send_task chan fuel s).globals).2] ∧
      (uart_send_task chan (fuel + 1) s).globals.total_bytes_sent =
        (send_iteration (chan fuel) s.ram_storage_size
          (uart_send_task chan fuel s).globals).1.total_bytes_sent) ∧
    ((uart_send_task chan fuel s).finished = true →
      (uart_send_task chan fuel s).globals.total_bytes_sent = s.ram_storage_size ∧
      (uart_send_task chan fuel s).globals.current_state = STATE_IDLE ∧
      (uart_send_task chan fuel s).writes.length ≤ fuel ∧
      uart_send_task chan (fuel + 1) s = uart_send_task chan fuel s) ∧
    (uart_send_task chan fuel s).globals.total_bytes_sent
      = s.total_bytes_sent + accepted (uart_send_task chan fuel s).writes ∧
    (uart_send_task chan fuel s).globals.log
      = s.log ++ send_errors (uart_send_task chan fuel s).writes ∧
    (∀ j, j < (uart_send_task chan fuel s).writes.length →
      s.total_bytes_sent + accepted ((uart_send_task chan fuel s).writes.take j)
        < s.ram_storage_size ∧
      (uart_send_task chan fuel s).writes[j]? =
        some (write_at chan s
          (s.total_bytes_sent + accepted ((uart_send_task chan fuel s).writes.take j)) j)) ∧
    (∀ (j : Nat) (w w2 : List (Option uint8_t) × Int),
      (uart_send_task chan fuel s).writes[j]? = some w →
      (uart_send_task chan fuel s).writes[j + 1]? = some w2 →
      w.2 ≤ 0 → w2.1 = w.1) := by
  have hrun : ∀ f, uart_send_task chan f s = send_loop chan s.ram_storage_size f s [] := by
    intro f
    unfold uart_send_task
    rw [if_pos hstate]
  have hinv := send_loop_inv chan s fuel hchan hsize hsent hstate
  have hmore := send_loop_succ_more chan s.ram_storage_size fuel s []
  rw [hrun fuel, hrun (fuel + 1), hmore]
  generalize send_loop chan s.ram_storage_size fuel s [] = R at hinv ⊢
  obtain ⟨G, W, fin⟩ := R
  obtain ⟨h1, h2, h3, h4, h5, h6, h7, h8⟩ := hinv
  simp only at h1 h2 h3 h4 h5 h6 h7 h8 ⊢
  refine ⟨?_, h4, ?_, ?_, ?_, h3, h5, h8, ?_⟩
  · intro hlt
    have hc := chunk_at_le s s.ram_storage_size
    have hr := hchan k
      (ram_slice s.ram_storage s.total_bytes_sent (chunk_at s s.ram_storage_size))
    rw [ram_slice_length] at hr
    have hlen : chunk_at s s.ram_storage_size
        = min (s.ram_storage_size - s.total_bytes_sent) BUF_SIZE := by
      unfold chunk_at
      split <;> omega
    rw [send_iteration_eq _ s hlt hsize]
    by_cases hpos : 0 < chan k
        (ram_slice s.ram_storage s.total_bytes_sent (chunk_at s s.ram_storage_size))
    · rw [if_pos hpos]
      refine ⟨by rw [← hlen]; exact ram_slice_length _ _ _, rfl, ?_, ?_⟩
      · intro _
        show (((s.total_bytes_sent + (chan k (ram_slice s.ram_storage s.total_bytes_sent
          (chunk_at s s.ram_storage_size))).toNat) % SIZE_MOD : Nat) : Int)
          = (s.total_bytes_sent : Int) + chan k (ram_slice s.ram_storage s.total_bytes_sent
              (chunk_at s s.ram_storage_size))
        rw [Nat.mod_eq_of_lt (by omega)]
        omega
      · intro hle
        have hle2 : chan k (ram_slice s.ram_storage s.total_bytes_sent
            (chunk_at s s.ram_storage_size)) ≤ 0 := hle
        omega
    · rw [if_neg hpos]
      refine ⟨by rw [← hlen]; exact ram_slice_length _ _ _, rfl, ?_, ?_⟩
      · intro h
        exact absurd h hpos
      · intro _
        refine ⟨rfl, rfl, ?_⟩
        have h2 := send_iteration_eq (chan (k + 1))
          { s with log := s.log ++ [log_error.send_error (chan k
              (ram_slice s.ram_storage s.total_bytes_sent (chunk_at s s.ram_storage_size)))] }
          hlt hsize
        have h3 : (send_iteration (chan (k + 1)) s.ram_storage_size
            { s with log := s.log ++ [log_error.send_error (chan k
              (ram_slice s.ram_storage s.total_bytes_sent
                (chunk_at s s.ram_storage_size)))] }).2.1
            = ram_slice s.ram_storage s.total_bytes_sent (chunk_at s s.ram_storage_size) := by
          rw [h2]
          split <;> rfl
        exact h3
  · intro hidle
    cases fin with
    | true => exact (h7 rfl).1
    | false =>
      rw [(h6 rfl).2.2] at hidle
      exact uart_state_t.noConfusion hidle
  · intro hf
    subst hf
    obtain ⟨e1, e2, e3⟩ := h6 rfl
    refine ⟨e1, e2, e3, ?_, ?_⟩
    · show (send_loop chan s.ram_storage_size 0
          (send_iteration (chan W.length) s.ram_storage_size G).1
          (W ++ [(send_iteration (chan W.length) s.ram_storage_size G).2])).writes = _
      rw [send_loop_zero, e1]
      split <;> rfl
    · show (send_loop chan s.ram_storage_size 0
          (send_iteration (chan W.length) s.ram_storage_size G).1
          (W ++ [(send_iteration (chan W.length) s.ram_storage_size G).2])).globals.total_bytes_sent
          = _
      rw [send_loop_zero, e1]
      split <;> rfl
  · intro hf
    subst hf
    obtain ⟨e1, e2, e3⟩ := h7 rfl
    exact ⟨e1, e2, e3, rfl⟩
  · intro j w w2 hw hw2 hle
    have hj2 : j + 1 < W.length := by
      by_contra hc
      rw [List.getElem?_eq_none (by omega)] at hw2
      exact Option.noConfusion hw2
    obtain ⟨_, g1⟩ := h8 j (by omega)
    obtain ⟨_, g2⟩ := h8 (j + 1) hj2
    rw [hw] at g1
    rw [hw2] at g2
    have hz : w.2.toNat = 0 := by omega
    have htake : accepted (W.take (j + 1)) = accepted (W.take j) := by
      rw [List.take_succ, hw]
      show accepted (W.take j ++ [w]) = _
      rw [accepted_concat, hz, Nat.add_zero]
    rw [htake] at g2
    have e1 := Option.some.inj g1
    have e2 := Option.some.inj g2
    rw [e1, e2]
    rfl

/-- C13 on five bytes to send with a driver that refuses the first write and
then accepts at most two bytes per call.  After two iterations the loop has
not ended; with ten allowed it has, after the calls of results 0, 2, 2, 1, the
second of which passed the same five bytes as the refused first. -/
theorem C13_send_accounting_witness :
    five_to_send.current_state = STATE_SENDING ∧
    five_to_send.ram_storage_size < SIZE_MOD ∧
    five_to_send.total_bytes_sent ≤ five_to_send.ram_storage_size ∧
    (∀ (j : Nat) (data : List (Option uint8_t)),
      refusing_driver j data ≤ (data.length : Int)) ∧
    (uart_send_task refusing_driver 2 five_to_send).finished = false ∧
    ((uart_send_task refusing_driver 2 five_to_send).writes.length = 2 ∧
      (uart_send_task refusing_driver 2 five_to_send).globals.total_bytes_sent
        < five_to_send.ram_storage_size ∧
      (uart_send_task refusing_driver 2 five_to_send).globals.current_state = STATE_SENDING ∧
      (uart_send_task refusing_driver (2 + 1) five_to_send).writes =
        (uart_send_task refusing_driver 2 five_to_send).writes ++
          [(send_iteration (refusing_driver 2) five_to_send.ram_storage_size
            (uart_send_task refusing_driver 2 five_to_send).globals).2] ∧
      (uart_send_task refusing_driver (2 + 1) five_to_send).globals.total_bytes_sent =
        (send_iteration (refusing_driver 2) five_to_send.ram_storage_size
          (uart_send_task refusing_driver 2 five_to_send).globals).1.total_bytes_sent) ∧
    (uart_send_task refusing_driver 10 five_to_send).finished = true ∧
    ((uart_send_task refusing_driver 10 five_to_send).globals.total_bytes_sent
        = five_to_send.ram_storage_size ∧
      (uart_send_task refusing_driver 10 five_to_send).globals.current_state = STATE_IDLE ∧
      (uart_send_task refusing_driver 10 five_to_send).writes.length ≤ 10 ∧
      uart_send_task refusing_driver (10 + 1) five_to_send
        = uart_send_task refusing_driver 10 five_to_send) ∧
    (uart_send_task refusing_driver 10 five_to_send).writes.map (fun w => w.2) = [0, 2, 2, 1] ∧
    (uart_send_task refusing_driver 10 five_to_send).globals.total_bytes_sent
      = five_to_send.total_bytes_sent
        + accepted (uart_send_task refusing_driver 10 five_to_send).writes ∧
    (uart_send_task refusing_driver 10 five_to_send).globals.log
      = five_to_send.log ++ send_errors (uart_send_task refusing_driver 10 five_to_send).writes ∧
    (∀ (w w2 : List (Option uint8_t) × Int),
      (uart_send_task refusing_driver 10 five_to_send).writes[0]? = some w →
      (uart_send_task refusing_driver 10 five_to_send).writes[0 + 1]? = some w2 →
      w.2 ≤ 0 → w2.1 = w.1) :=
  have hchan : ∀ (j : Nat) (data : List (Option uint8_t)),
      refusing_driver j data ≤ (data.length : Int) := by
    intro j data
    unfold refusing_driver
    split <;> omega
  have h2 := C13_send_accounting refusing_driver five_to_send 0 2
    rfl (by decide) (by decide) hchan
  have h10 := C13_send_accounting refusing_driver five_to_send 0 10
    rfl (by decide) (by decide) hchan
  ⟨rfl, by decide, by decide, hchan,
   by decide, h2.2.2.2.1 (by decide),
   by decide, h10.2.2.2.2.1 (by decide),
   by decide, h10.2.2.2.2.2.1, h10.2.2.2.2.2.2.1, h10.2.2.2.2.2.2.2.2 0⟩

/-- C16: on a store of size `n <= 2048`, with a driver that never returns more
than the length passed and transmits the first `r` bytes of the data when it
returns `r > 0` (nothing otherwise), once the send task has ended the bytes
transmitted are exactly `ram_storage[0]`, ..., `ram_storage[n - 1]`, in
order. -/
theorem C16_send_transmits_store (chan : Nat → List (Option uint8_t) → Int) (s : State)
    (fuel : Nat)
    (hstate : s.current_state = STATE_SENDING) (hsent : s.total_bytes_sent = 0)
    (hcap : s.ram_storage_size ≤ MAX_TEXT_SIZE)
    (hchan : ∀ j data, chan j data ≤ (data.length : Int))
    (hfin : (uart_send_task chan fuel s).finished = true) :
    transmitted (uart_send_task chan fuel s).writes
      = ram_slice s.ram_storage 0 s.ram_storage_size ∧
    (transmitted (uart_send_task chan fuel s).writes).length = s.ram_storage_size ∧
    (∀ i (hi : i < MAX_TEXT_SIZE), i < s.ram_storage_size →
      (transmitted (uart_send_task chan fuel s).writes)[i]?
        = some (some (s.ram_storage ⟨i, hi⟩))) := by
  have hsize : s.ram_storage_size < SIZE_MOD := by
    unfold MAX_TEXT_SIZE at hcap
    unfold SIZE_MOD
    omega
  unfold uart_send_task at hfin ⊢
  rw [if_pos hstate] at hfin ⊢
  obtain ⟨_, h2, _, _, _, h6⟩ := send_loop_short_writes chan hchan s.ram_storage_size fuel
    0 s [] rfl hsize (by omega) (Nat.zero_le _) hstate (by rw [hsent]; rfl)
  rw [(h2 hfin).1, Nat.sub_zero] at h6
  rw [h6]
  refine ⟨rfl, ram_slice_length _ _ _, ?_⟩
  intro i hi hin
  unfold ram_slice
  rw [List.getElem?_map, List.getElem?_range hin, Option.map_some', Nat.zero_add]
  unfold ram_read
  rw [dif_pos hi]

/-- C16 on the store `0x41, 0x42, 0x43` with a driver that refuses the first
write and then accepts at most two bytes per call. -/
theorem C16_send_transmits_store_witness :
    ({ store_byte (store_byte (store_byte initial_state 0x41 0) 0x42 1) 0x43 2 with
        current_state := STATE_SENDING } : State).ram_storage_size ≤ MAX_TEXT_SIZE ∧
    (∀ (j : Nat) (data : List (Option uint8_t)),
      (if j = 0 then (0 : Int) else ((min 2 data.length : Nat) : Int)) ≤ (data.length : Int)) ∧
    (uart_send_task (fun j data => if j = 0 then 0 else ((min 2 data.length : Nat) : Int)) 4
      { store_byte (store_byte (store_byte initial_state 0x41 0) 0x42 1) 0x43 2 with
        current_state := STATE_SENDING }).finished = true ∧
    transmitted (uart_send_task
      (fun j data => if j = 0 then 0 else ((min 2 data.length : Nat) : Int)) 4
      { store_byte (store_byte (store_byte initial_state 0x41 0) 0x42 1) 0x43 2 with
        current_state := STATE_SENDING }).writes
      = ram_slice ({ store_byte (store_byte (store_byte initial_state 0x41 0) 0x42 1) 0x43 2
          with current_state := STATE_SENDING } : State).ram_storage 0
          ({ store_byte (store_byte (store_byte initial_state 0x41 0) 0x42 1) 0x43 2 with
            current_state := STATE_SENDING } : State).ram_storage_size :=
  have hchan : ∀ (j : Nat) (data : List (Option uint8_t)),
      (if j = 0 then (0 : Int) else ((min 2 data.length : Nat) : Int)) ≤ (data.length : Int) := by
    intro j data
    split <;> omega
  ⟨by decide, hchan, by decide,
   (C16_send_transmits_store
     (fun j data => if j = 0 then 0 else ((min 2 data.length : Nat) : Int))
     { store_byte (store_byte (store_byte initial_state 0x41 0) 0x42 1) 0x43 2 with
       current_state := STATE_SENDING } 4 rfl rfl (by decide) hchan (by decide)).1⟩

/-! ### The two tasks side by side -/

theorem retrieve_byte_snd (s : State) (p : Nat) :
    ∃ l, (retrieve_byte s p).2 = { s with log := l } := by
  unfold retrieve_byte
  split
  · exact ⟨s.log, rfl⟩
  · exact ⟨_, rfl⟩

theorem fill_data_snd (s : State) (c : Nat) :
    ∃ l, (fill_data s c).2 = { s with log := l } := by
  induction c with
  | zero => exact ⟨s.log, rfl⟩
  | succ c ih =>
    obtain ⟨l, hl⟩ := ih
    rw [fill_data_succ, hl]
    obtain ⟨l2, hl2⟩ := retrieve_byte_snd { s with log := l }
      ((({ s with log := l } : State).total_bytes_sent + c) % SIZE_MOD)
    exact ⟨l2, hl2⟩

/-- An iteration of the send loop writes only `total_bytes_sent` and the
log. -/
theorem send_iteration_fst (f : List (Option uint8_t) → Int) (a : Nat) (s : State) :
    ∃ t l, (send_iteration f a s).1 = { s with total_bytes_sent := t, log := l } := by
  unfold send_iteration
  generalize (if BUF_SIZE < a - s.total_bytes_sent then BUF_SIZE
    else a - s.total_bytes_sent) = c
  obtain ⟨l, hl⟩ := fill_data_snd s c
  simp only [hl]
  by_cases hp : 0 < f (fill_data s c).1
  · rw [if_pos hp]
    exact ⟨_, _, rfl⟩
  · rw [if_neg hp]
    exact ⟨_, _, rfl⟩

theorem store_byte_other_fields (s : State) (b : uint8_t) (p : Nat) :
    (store_byte s b p).current_state = s.current_state ∧
    (store_byte s b p).end_of_transmission = s.end_of_transmission ∧
    (store_byte s b p).total_bytes_received = s.total_bytes_received := by
  unfold store_byte
  split <;> exact ⟨rfl, rfl, rfl⟩

theorem system_inv_initial : system_inv initial_system := by
  exact ⟨rfl, rfl, rfl⟩

theorem system_inv_recv_step (sys : System) (chunk : List uint8_t) (h : system_inv sys) :
    system_inv (recv_step sys chunk) := by
  obtain ⟨g, rp, sp⟩ := sys
  cases rp with
  | loop_head =>
    obtain ⟨h1, h2, h3⟩ := h
    simp only [recv_step]
    simp only at h1 h2 h3
    rw [if_pos h1]
    split
    · exact ⟨h1, h2, h3⟩
    · exact ⟨h1, h2, h3⟩
  | for_head pending =>
    obtain ⟨h1, h2, h3⟩ := h
    cases pending with
    | nil => exact Or.inl ⟨h1, h2, h3⟩
    | cons b rest =>
      simp only at h1 h2 h3
      obtain ⟨e1, e2, _⟩ := store_byte_other_fields g b g.total_bytes_received
      exact ⟨e1.trans h1, h2, e2.trans h3⟩
  | stored b rest =>
    obtain ⟨h1, h2, h3⟩ := h
    exact ⟨h1, h2, h3⟩
  | counted b rest =>
    obtain ⟨h1, h2, h3⟩ := h
    simp only [recv_step, check_eot_eq]
    split
    · exact ⟨h1, h2, h3⟩
    · exact ⟨h1, h2, h3⟩
  | matched =>
    obtain ⟨h1, h2, _⟩ := h
    exact ⟨h1, h2, rfl⟩
  | flagged =>
    obtain ⟨h1, h2, h3⟩ := h
    exact ⟨h1, h2, h3, rfl⟩
  | trimmed =>
    obtain ⟨_, h2, h3, h4⟩ := h
    simp only at h2 h3 h4
    subst h2
    exact Or.inr ⟨h3, h4, rfl⟩
  | after_for =>
    rcases h with ⟨h1, h2, h3⟩ | ⟨h1, h2, h3⟩
    · simp only at h1 h2 h3
      simp only [recv_step, h3]
      exact ⟨h1, h2, h3⟩
    · simp only at h1 h2 h3
      simp only [recv_step, h1, if_true]
      exact ⟨h1, h2, h3⟩
  | finished => exact h

theorem system_inv_send_step (sys : System) (r : Int) (h : system_inv sys) :
    system_inv (send_step sys r) := by
  obtain ⟨g, rp, sp⟩ := sys
  cases sp with
  | waiting =>
    simp only [send_step]
    by_cases hst : g.current_state = STATE_SENDING
    · rw [if_pos hst]
      cases rp <;> simp_all [system_inv]
    · rw [if_neg hst]
      exact h
  | observed =>
    cases rp <;> simp_all [system_inv, send_step]
  | sending a =>
    simp only [send_step]
    by_cases hlt : g.total_bytes_sent < a
    · rw [if_pos hlt]
      obtain ⟨t, l, hit⟩ := send_iteration_fst (fun _ => r) a g
      rw [hit]
      cases rp <;> simp_all [system_inv]
    · rw [if_neg hlt]
      cases rp <;> simp_all [system_inv]
  | finished => exact h

theorem system_inv_step (sys : System) (e : event) (h : system_inv sys) :
    system_inv (system_step sys e) := by
  cases e with
  | recv_runs chunk => exact system_inv_recv_step sys chunk h
  | send_runs r => exact system_inv_send_step sys r h

theorem system_inv_foldl (events : List event) (sys : System) (h : system_inv sys) :
    system_inv (events.foldl system_step sys) := by
  induction events generalizing sys with
  | nil => exact h
  | cons e es ih => exact ih _ (system_inv_step sys e h)

/-- Every system state reached from start-up satisfies the invariant. -/
theorem system_inv_run (events : List event) : system_inv (run_system events) :=
  system_inv_foldl events initial_system system_inv_initial

/-- A step from a state satisfying the invariant leaves `current_state` as it
is, or is the state write of the receive task (Receiving to Sending), or is
the state write of the send task (Sending to Idle). -/
theorem system_step_current_state (sys : System) (e : event) (h : system_inv sys) :
    (system_step sys e).globals.current_state = sys.globals.current_state ∨
    (sys.globals.current_state = STATE_RECEIVING ∧
      (system_step sys e).globals.current_state = STATE_SENDING ∧
      sys.recv = recv_pc.trimmed ∧ ∃ chunk, e = event.recv_runs chunk) ∨
    (sys.globals.current_state = STATE_SENDING ∧
      (system_step sys e).globals.current_state = STATE_IDLE ∧
      (∃ a, sys.send = send_pc.sending a ∧ a ≤ sys.globals.total_bytes_sent) ∧
      ∃ r, e = event.send_runs r) := by
  obtain ⟨g, rp, sp⟩ := sys
  cases e with
  | recv_runs chunk =>
    cases rp with
    | loop_head =>
      left
      simp only [system_step, recv_step]
      split
      · split <;> rfl
      · rfl
    | for_head pending =>
      left
      cases pending with
      | nil => rfl
      | cons b rest => exact (store_byte_other_fields g b g.total_bytes_received).1
    | stored b rest => exact Or.inl rfl
    | counted b rest => exact Or.inl rfl
    | matched => exact Or.inl rfl
    | flagged => exact Or.inl rfl
    | trimmed => exact Or.inr (Or.inl ⟨h.1, rfl, rfl, chunk, rfl⟩)
    | after_for =>
      left
      simp only [system_step, recv_step]
      split <;> rfl
    | finished => exact Or.inl rfl
  | send_runs r =>
    cases sp with
    | waiting =>
      left
      simp only [system_step, send_step]
      split <;> rfl
    | observed => exact Or.inl rfl
    | sending a =>
      simp only [system_step, send_step]
      by_cases hlt : g.total_bytes_sent < a
      · left
        rw [if_pos hlt]
        obtain ⟨t, l, hit⟩ := send_iteration_fst (fun _ => r) a g
        simp only [hit]
      · right
        right
        rw [if_neg hlt]
        have hst : g.current_state = STATE_SENDING := by
          cases rp <;> simp_all [system_inv]
        exact ⟨hst, rfl, ⟨a, rfl, by simpa using hlt⟩, r, rfl⟩
    | finished => exact Or.inl rfl

/-- C14: in the system of the two tasks, where every step is one step of one
task and the steps interleave in any order, `current_state` starts as
`STATE_RECEIVING`, and a step from a reachable state either leaves it
unchanged, or is the state write of the receive task in the match branch
(Receiving to Sending), or is the state write of the send task once
`total_bytes_sent` has reached `actual_size` (Sending to Idle).  Hence no step
changes the state to `STATE_RECEIVING` and no step leaves `STATE_IDLE`. -/
theorem C14_state_transitions (events : List event) (e : event) :
    (run_system []).globals.current_state = STATE_RECEIVING ∧
    ((system_step (run_system events) e).globals.current_state
        = (run_system events).globals.current_state ∨
     ((run_system events).globals.current_state = STATE_RECEIVING ∧
       (system_step (run_system events) e).globals.current_state = STATE_SENDING ∧
       (run_system events).recv = recv_pc.trimmed ∧ ∃ chunk, e = event.recv_runs chunk) ∨
     ((run_system events).globals.current_state = STATE_SENDING ∧
       (system_step (run_system events) e).globals.current_state = STATE_IDLE ∧
       (∃ a, (run_system events).send = send_pc.sending a ∧
         a ≤ (run_system events).globals.total_bytes_sent) ∧
       ∃ r, e = event.send_runs r)) ∧
    ((system_step (run_system events) e).globals.current_state = STATE_RECEIVING →
      (run_system events).globals.current_state = STATE_RECEIVING) ∧
    ((run_system events).globals.current_state = STATE_IDLE →
      (system_step (run_system events) e).globals.current_state = STATE_IDLE) := by
  have hstep := system_step_current_state (run_system events) e (system_inv_run events)
  refine ⟨rfl, hstep, ?_, ?_⟩
  · intro h
    rcases hstep with h1 | ⟨_, h2, _⟩ | ⟨_, h2, _⟩
    · rw [← h1]
      exact h
    · rw [h2] at h
      exact uart_state_t.noConfusion h
    · rw [h2] at h
      exact uart_state_t.noConfusion h
  · intro h
    rcases hstep with h1 | ⟨h2, _⟩ | ⟨h2, _⟩
    · rw [h1]
      exact h
    · rw [h2] at h
      exact uart_state_t.noConfusion h
    · rw [h2] at h
      exact uart_state_t.noConfusion h

/-- C14 on a complete run: the receive task takes 13 steps on the chunk
`0x0A, 0x0A, 0x0A`, the send task 3 steps; the state is then `STATE_IDLE` and
a further step of the receive task leaves it there. -/
theorem C14_state_transitions_witness :
    (run_system (List.replicate 13 (event.recv_runs [10, 10, 10]) ++
      List.replicate 3 (event.send_runs 0))).globals.current_state = STATE_IDLE ∧
    (system_step (run_system (List.replicate 13 (event.recv_runs [10, 10, 10]) ++
      List.replicate 3 (event.send_runs 0))) (event.recv_runs [0x41])).globals.current_state
      = STATE_IDLE :=
  ⟨by decide,
   (C14_state_transitions (List.replicate 13 (event.recv_runs [10, 10, 10]) ++
      List.replicate 3 (event.send_runs 0)) (event.recv_runs [0x41])).2.2.2 (by decide)⟩

/-- C15: in the system of the two tasks, under every interleaving of their
steps, whenever the send task is past its read of `ram_storage_size` (line 165)
the value `actual_size` it holds is the trimmed size `total_bytes_received -
EOT_MARKER_LEN` (in `size_t` arithmetic) written by the receive task on line
127, which is still the value of `ram_storage_size`; the receive task has set
`end_of_transmission` and is past its `for` loop, so no `store_byte` follows. -/
theorem C15_send_reads_trimmed_size (events : List event) (a : Nat)
    (h : (run_system events).send = send_pc.sending a) :
    a = (SIZE_MOD - EOT_MARKER_LEN + (run_system events).globals.total_bytes_received)
          % SIZE_MOD ∧
    a = (run_system events).globals.ram_storage_size ∧
    (run_system events).globals.end_of_transmission = true ∧
    ((run_system events).recv = recv_pc.after_for ∨
      (run_system events).recv = recv_pc.finished) := by
  have hinv := system_inv_run events
  generalize run_system events = sys at h hinv
  obtain ⟨g, rp, sp⟩ := sys
  simp only at h
  subst h
  cases rp <;> simp_all [system_inv]

/-- C15 on an interleaving in which the send task polls twice while the
receive task processes `0x41, 0x0A, 0x0A, 0x0A`: it then reads the size 1. -/
theorem C15_send_reads_trimmed_size_witness :
    (run_system ([event.send_runs 0] ++
      List.replicate 9 (event.recv_runs [0x41, 10, 10, 10]) ++ [event.send_runs 0] ++
      List.replicate 7 (event.recv_runs []) ++
      List.replicate 2 (event.send_runs 0))).send = send_pc.sending 1 ∧
    (1 = (SIZE_MOD - EOT_MARKER_LEN + (run_system ([event.send_runs 0] ++
      List.replicate 9 (event.recv_runs [0x41, 10, 10, 10]) ++ [event.send_runs 0] ++
      List.replicate 7 (event.recv_runs []) ++
      List.replicate 2 (event.send_runs 0))).globals.total_bytes_received) % SIZE_MOD ∧
     1 = (run_system ([event.send_runs 0] ++
      List.replicate 9 (event.recv_runs [0x41, 10, 10, 10]) ++ [event.send_runs 0] ++
      List.replicate 7 (event.recv_runs []) ++
      List.replicate 2 (event.send_runs 0))).globals.ram_storage_size ∧
     (run_system ([event.send_runs 0] ++
      List.replicate 9 (event.recv_runs [0x41, 10, 10, 10]) ++ [event.send_runs 0] ++
      List.replicate 7 (event.recv_runs []) ++
      List.replicate 2 (event.send_runs 0))).globals.end_of_transmission = true ∧
     ((run_system ([event.send_runs 0] ++
      List.replicate 9 (event.recv_runs [0x41, 10, 10, 10]) ++ [event.send_runs 0] ++
      List.replicate 7 (event.recv_runs []) ++
      List.replicate 2 (event.send_runs 0))).recv = recv_pc.after_for ∨
      (run_system ([event.send_runs 0] ++
      List.replicate 9 (event.recv_runs [0x41, 10, 10, 10]) ++ [event.send_runs 0] ++
      List.replicate 7 (event.recv_runs []) ++
      List.replicate 2 (event.send_runs 0))).recv = recv_pc.finished)) :=
  ⟨by decide,
   C15_send_reads_trimmed_size ([event.send_runs 0] ++
      List.replicate 9 (event.recv_runs [0x41, 10, 10, 10]) ++ [event.send_runs 0] ++
      List.replicate 7 (event.recv_runs []) ++
      List.replicate 2 (event.send_runs 0)) 1 (by decide)⟩

end UartEcho
